import Mathlib

/-!
Wordle clone (`Worlde-Clone/script.js`): guess evaluation and game state.

A shallow embedding of the game logic of `script.js`: `GameState`
(`reset`, `updateStats`) and the `WordleGame` controller (`handleKeyPress`,
`submitGuess` and its deferred callback, `checkGuess`, `handleWin`,
`handleLoss`, `resetBoard`, `newGame`, `getHint`).  DOM updates, sounds and
confetti do not touch the game state and are left out.

Conventions
* a JavaScript string is a Lean `String`; `split('')` yields its characters
  (one `Char` stands for one UTF-16 code unit);
* a JavaScript array is a `List`; reading past the end yields `undefined`,
  writing past the end grows the array, leaving holes;
* a `TypeError` (indexing into `undefined`) is the result `none`;
* `setTimeout` callbacks are kept in a queue of pending timers that an
  explicit timer event fires, oldest first (all delays are equal);
* `Math.random()` is a parameter, a fraction `num / den` in `[0, 1)`.
-/

namespace Wordle

/-! ## JavaScript arrays -/

/-- Values stored in the arrays of `checkGuess`: a one-character string,
`null`, or `undefined` (a hole, or a read past the end). -/
inductive JSVal where
  | undefined
  | null
  | str (c : Char)
  deriving DecidableEq, Repr

/-- Array read `a[i]` with `hole` standing for `undefined`. -/
def jsGet {α : Type} (hole : α) (a : List α) (i : Nat) : α :=
  a.getD i hole

/-- Array write `a[i] = v`: in range it replaces the element, past the end the
array grows and the skipped indices are holes. -/
def jsSet {α : Type} (hole : α) (a : List α) (i : Nat) (v : α) : List α :=
  if i < a.length then a.set i v
  else a ++ List.replicate (i - a.length) hole ++ [v]

/-- First index of `x` in `a` by strict equality, as in `Array.prototype.indexOf`
(`none` is the result `-1`). -/
def firstIndex (x : JSVal) : List JSVal → Option Nat
  | [] => none
  | y :: ys => if y = x then some 0 else (firstIndex x ys).map (· + 1)

/-- The call `wordArray.indexOf(x)`.  The only `undefined` entries of `wordArray` are
holes, which `indexOf` skips, so `undefined` is never found. -/
def indexOf (a : List JSVal) (x : JSVal) : Option Nat :=
  if x = JSVal.undefined then none else firstIndex x a

/-- The array `s.split('')`. -/
def split (s : String) : List JSVal :=
  s.toList.map JSVal.str

/-! ## checkGuess -/

/-- The three strings `checkGuess` stores in `result`. -/
inductive Verdict where
  | correct
  | present
  | absent
  deriving DecidableEq, Repr

/-- Loop state of `checkGuess`: the `result` array (`none` is a hole) and the mutable
`wordArray`. -/
structure CheckState where
  result : List (Option Verdict)
  wordArray : List JSVal
  deriving DecidableEq, Repr

/-- Body of the first loop of `checkGuess` at index `i`. -/
def firstPassStep (guessArray : List JSVal) (st : CheckState) (i : Nat) : CheckState :=
  if jsGet JSVal.undefined guessArray i = jsGet JSVal.undefined st.wordArray i then
    { result := jsSet none st.result i (some Verdict.correct)
      wordArray := jsSet JSVal.undefined st.wordArray i JSVal.null }
  else st

/-- Body of the second loop of `checkGuess` at index `i`. -/
def secondPassStep (guessArray : List JSVal) (st : CheckState) (i : Nat) : CheckState :=
  if jsGet none st.result i ≠ some Verdict.correct then
    match indexOf st.wordArray (jsGet JSVal.undefined guessArray i) with
    | some letterIndex =>
      { result := jsSet none st.result i (some Verdict.present)
        wordArray := jsSet JSVal.undefined st.wordArray letterIndex JSVal.null }
    | none =>
      { st with result := jsSet none st.result i (some Verdict.absent) }
  else st

/-- First loop run for `i = 0 .. n-1`. -/
def firstPass (guessArray : List JSVal) (n : Nat) (st : CheckState) : CheckState :=
  (List.range n).foldl (firstPassStep guessArray) st

/-- Second loop run for `i = 0 .. n-1`. -/
def secondPass (guessArray : List JSVal) (n : Nat) (st : CheckState) : CheckState :=
  (List.range n).foldl (secondPassStep guessArray) st

/-- The method `checkGuess(guess)` with `this.state.currentWord = currentWord`. -/
def checkGuess (currentWord guess : String) : List (Option Verdict) :=
  let guessArray := split guess
  (secondPass guessArray 5
    (firstPass guessArray 5 { result := [], wordArray := split currentWord })).result

/-- Number of positions `j` among the five with `guess[j] = secret[j] = c`. -/
def exactMatches (secret guess : String) (c : Char) : Nat :=
  (List.range 5).countP
    (fun j => decide (guess.toList[j]? = some c ∧ secret.toList[j]? = some c))

/-- Number of positions `j < i` with `guess[j] = c` and `guess[j] ≠ secret[j]`. -/
def misplacedBefore (secret guess : String) (c : Char) (i : Nat) : Nat :=
  (List.range i).countP
    (fun j => decide (guess.toList[j]? = some c ∧ guess.toList[j]? ≠ secret.toList[j]?))

/-! ## GameState -/

/-- The record `this.stats`. -/
structure Stats where
  gamesPlayed : Nat
  gamesWon : Nat
  currentStreak : Nat
  maxStreak : Nat
  deriving DecidableEq, Repr

/-- The fields of `class GameState`.  A board cell is the string `''` or the key that was
typed into it. -/
structure GameState where
  currentWord : String
  currentRow : Nat
  currentCol : Nat
  gameOver : Bool
  gameBoard : List (List String)
  lastFiveKeys : List String
  hintsUsed : Nat
  maxHintsPerGame : Nat
  stats : Stats
  deriving DecidableEq, Repr

/-- A value of `Math.random()`: the fraction `num / den`, which lies in `[0, 1)`. -/
structure Rand where
  num : Nat
  den : Nat
  lt : num < den

/-- The index `Math.floor(Math.random() * n)`. -/
def Rand.floorMul (rnd : Rand) (n : Nat) : Nat :=
  rnd.num * n / rnd.den

/-- The board built by `createGameBoard`: six rows of five empty cells. -/
def emptyBoard : List (List String) :=
  List.replicate 6 (List.replicate 5 "")

/-- The state built by the constructor of `GameState`, after `createGameBoard` has
filled in `gameBoard`. -/
def GameState.initial : GameState :=
  { currentWord := ""
    currentRow := 0
    currentCol := 0
    gameOver := false
    gameBoard := emptyBoard
    lastFiveKeys := []
    hintsUsed := 0
    maxHintsPerGame := 2
    stats := { gamesPlayed := 0, gamesWon := 0, currentStreak := 0, maxStreak := 0 } }

/-- The method `GameState.reset()`: `WORDS` is the imported dictionary and `rnd` the
random draw.  An index past the end of `WORDS` (only possible for an empty dictionary)
reads `undefined`, a word the embedding cannot hold: that case is `none`. -/
def GameState.reset (WORDS : List String) (rnd : Rand) (s : GameState) : Option GameState :=
  match WORDS[rnd.floorMul WORDS.length]? with
  | none => none
  | some w =>
    some { s with
      currentWord := w
      currentRow := 0
      currentCol := 0
      gameOver := false
      hintsUsed := 0
      lastFiveKeys := [] }

/-- The method `GameState.updateStats(won)`, on the statistics record. -/
def Stats.update (st : Stats) (won : Bool) : Stats :=
  let st := { st with gamesPlayed := st.gamesPlayed + 1 }
  if won then
    let st := { st with gamesWon := st.gamesWon + 1, currentStreak := st.currentStreak + 1 }
    if st.currentStreak > st.maxStreak then { st with maxStreak := st.currentStreak } else st
  else
    { st with currentStreak := 0 }

/-- The method `GameState.updateStats(won)`. -/
def GameState.updateStats (s : GameState) (won : Bool) : GameState :=
  { s with stats := s.stats.update won }

/-! ## WordleGame -/

/-- The closure passed to `setTimeout` by `submitGuess`: it captures `guess` and `result`. -/
structure PendingGuess where
  guess : String
  result : List (Option Verdict)
  deriving DecidableEq, Repr

/-- The controller: its `state` and the queue of `submitGuess` callbacks that have been
scheduled and have not fired yet. -/
structure WordleGame where
  state : GameState
  timers : List PendingGuess
  deriving DecidableEq, Repr

/-- The read `gameBoard[r][c]` (`''` for a missing cell). -/
def cellAt (board : List (List String)) (r c : Nat) : String :=
  (board.getD r []).getD c ""

/-- The write `gameBoard[r][c] = v`.  A missing row is a `TypeError`.  Rows are five cells
wide and every write of the program has `c < 5`; a write past the end of a row would leave
holes, which `join('')` renders as `''` and which are stored as `''` here. -/
def setCell (board : List (List String)) (r c : Nat) (v : String) :
    Option (List (List String)) :=
  match board[r]? with
  | none => none
  | some row => some (board.set r (jsSet "" row c v))

/-- The method `resetBoard()`: the two nested loops over `i < 6` and `j < 5`. -/
def resetBoard (board : List (List String)) : Option (List (List String)) :=
  (List.range 6).foldlM
    (fun b i => (List.range 5).foldlM (fun b j => setCell b i j "") b) board

/-- The method `newGame()`: `state.reset()` followed by `resetBoard()`.  Timers that are
pending stay scheduled. -/
def newGame (WORDS : List String) (rnd : Rand) (g : WordleGame) : Option WordleGame :=
  match g.state.reset WORDS rnd with
  | none => none
  | some s =>
    match resetBoard s.gameBoard with
    | none => none
    | some b => some { g with state := { s with gameBoard := b } }

/-- The test `key.match(/[A-Z]/) && key.length === 1`. -/
def isLetterKey (key : String) : Bool :=
  key.toList.any (fun c => decide ('A' ≤ c ∧ c ≤ 'Z')) && key.length == 1

/-- The array `lastFiveKeys` after `push(key)` and, when it then holds more than five
keys, `shift()`. -/
def keyHistory (s : GameState) (key : String) : List String :=
  let pushed := s.lastFiveKeys ++ [key]
  if pushed.length > 5 then pushed.tail else pushed

/-- The test-mode block of `handleKeyPress`: the state with the key history updated, and
whether the handler returns early because the history spells `QWERT`. -/
def trackKey (s : GameState) (key : String) : GameState × Bool :=
  if isLetterKey key then
    if String.join (keyHistory s key) = "QWERT" then ({ s with lastFiveKeys := [] }, true)
    else ({ s with lastFiveKeys := keyHistory s key }, false)
  else (s, false)

/-- The method `handleWin()`. -/
def handleWin (s : GameState) : GameState :=
  GameState.updateStats { s with gameOver := true } true

/-- The method `handleLoss()`. -/
def handleLoss (s : GameState) : GameState :=
  GameState.updateStats { s with gameOver := true } false

/-- The body of the callback that `submitGuess` defers by 1000 ms. -/
def submitCallback (guess : String) (s : GameState) : GameState :=
  if guess = s.currentWord then handleWin s
  else if s.currentRow = 5 then handleLoss s
  else { s with currentRow := s.currentRow + 1, currentCol := 0 }

/-- The method `submitGuess()`: it evaluates the current row and schedules the callback. -/
def submitGuess (g : WordleGame) : Option WordleGame :=
  if g.state.gameOver then some g
  else
    match g.state.gameBoard[g.state.currentRow]? with
    | none => none
    | some row =>
      let guess := String.join row
      if guess.length ≠ 5 then some g
      else
        let result := checkGuess g.state.currentWord guess
        some { g with timers := g.timers ++ [{ guess := guess, result := result }] }

/-- The method `handleKeyPress(key)`. -/
def handleKeyPress (g : WordleGame) (key : String) : Option WordleGame :=
  if g.state.gameOver then some g
  else
    let tracked := trackKey g.state key
    let s := tracked.1
    if tracked.2 then some { g with state := s }
    else if key = "ENTER" ∨ key = "Enter" then
      if s.currentCol = 5 then submitGuess { g with state := s }
      else some { g with state := s }
    else if key = "BACKSPACE" ∨ key = "Backspace" then
      if s.currentCol > 0 then
        let col := s.currentCol - 1
        match setCell s.gameBoard s.currentRow col "" with
        | none => none
        | some b => some { g with state := { s with currentCol := col, gameBoard := b } }
      else some { g with state := s }
    else if isLetterKey key ∧ s.currentCol < 5 then
      match setCell s.gameBoard s.currentRow s.currentCol key with
      | none => none
      | some b =>
        some { g with state := { s with gameBoard := b, currentCol := s.currentCol + 1 } }
    else some { g with state := s }

/-! ## getHint -/

/-- The read `currentWord[i]`: a one-character string, or `none` for `undefined`. -/
def charAt (word : String) (i : Nat) : Option String :=
  (word.toList[i]?).map (fun c => String.mk [c])

/-- The test `gameBoard[row][col] === currentWord[col]` of `getHint`; a missing row is a
`TypeError` (`none`), a missing cell reads `undefined`. -/
def cellIsCorrect (s : GameState) (row col : Nat) : Option Bool :=
  match s.gameBoard[row]? with
  | none => none
  | some cells => some (decide (cells[col]? = charAt s.currentWord col))

/-- A loop `for (i = 0; i < n; i++)` that sets a flag and stops at the first index where
`test` holds: the value of the flag after the loop (`none` if a test raises an error). -/
def loopUntil (n : Nat) (test : Nat → Option Bool) : Option Bool :=
  (List.range n).foldlM (fun found i => if found then some true else test i) false

/-- The flag `hasCorrectLetter` of `getHint` after its first pair of loops. -/
def hasCorrectLetter (s : GameState) : Option Bool :=
  loopUntil s.currentRow (fun row => loopUntil 5 (fun col => cellIsCorrect s row col))

/-- The flag `positionCorrectlyGuessed` of `getHint` for column `i`. -/
def positionCorrectlyGuessed (s : GameState) (i : Nat) : Option Bool :=
  loopUntil s.currentRow (fun row => cellIsCorrect s row i)

/-- The array `unguessedPositions` of `getHint`. -/
def unguessedPositions (s : GameState) : Option (List Nat) :=
  (List.range 5).foldlM
    (fun acc i =>
      match positionCorrectlyGuessed s i with
      | none => none
      | some true => some acc
      | some false => some (acc ++ [i]))
    []

/-- The message `getHint` shows: one of the five denials, or the hint with the letter
`currentWord[position]` and the 1-based position. -/
inductive HintMessage where
  | gameOver
  | noMoreHints
  | guessFirst
  | needCorrectLetter
  | allFound
  | letterAt (letter : Option String) (position : Nat)
  deriving DecidableEq, Repr

/-- The method `getHint()`: the state after the call and the message shown.  The index
`Math.floor(Math.random() * unguessedPositions.length)` is below the length of the
non-empty array, so the last `none` branch is never taken. -/
def getHint (rnd : Rand) (s : GameState) : Option (GameState × HintMessage) :=
  if s.gameOver = true ∨ s.hintsUsed ≥ s.maxHintsPerGame then
    some (s, if s.gameOver = true then HintMessage.gameOver else HintMessage.noMoreHints)
  else if s.currentRow = 0 then some (s, HintMessage.guessFirst)
  else
    match hasCorrectLetter s with
    | none => none
    | some false => some (s, HintMessage.needCorrectLetter)
    | some true =>
      match unguessedPositions s with
      | none => none
      | some unguessed =>
        if unguessed.length = 0 then some (s, HintMessage.allFound)
        else
          match unguessed[rnd.floorMul unguessed.length]? with
          | none => none
          | some position =>
            some ({ s with hintsUsed := s.hintsUsed + 1 },
              HintMessage.letterAt (charAt s.currentWord position) (position + 1))

/-- Whether some cell of a row below `currentRow` holds the secret word's letter of its
column. -/
def anyCorrect (s : GameState) : Bool :=
  (List.range s.currentRow).any (fun r =>
    (List.range 5).any (fun c => decide (cellIsCorrect s r c = some true)))

/-- The columns in which no row below `currentRow` holds the secret word's letter. -/
def unguessedCols (s : GameState) : List Nat :=
  (List.range 5).filter (fun i =>
    !(List.range s.currentRow).any (fun r => decide (cellIsCorrect s r i = some true)))

/-- The oldest pending `submitGuess` callback fires (no-op when none is pending). -/
def fireTimer (g : WordleGame) : WordleGame :=
  match g.timers with
  | [] => g
  | t :: rest => { state := submitCallback t.guess g.state, timers := rest }

/-- The events the controller reacts to. -/
inductive Event where
  | key (k : String)
  | timer
  | newGame (rnd : Rand)
  | hint (rnd : Rand)

/-- One event handled by the controller. -/
def step (WORDS : List String) (g : WordleGame) : Event → Option WordleGame
  | Event.key k => handleKeyPress g k
  | Event.timer => some (fireTimer g)
  | Event.newGame rnd => newGame WORDS rnd g
  | Event.hint rnd =>
    match getHint rnd g.state with
    | none => none
    | some r => some { g with state := r.1 }

/-- A sequence of events handled in order; an uncaught error stops the run. -/
def run (WORDS : List String) (g : WordleGame) : List Event → Option WordleGame
  | [] => some g
  | e :: es =>
    match step WORDS g e with
    | none => none
    | some g1 => run WORDS g1 es

/-- The game right after `init()`: `createGameBoard()` then `newGame()`. -/
def WordleGame.init (WORDS : List String) (rnd : Rand) : Option WordleGame :=
  newGame WORDS rnd { state := GameState.initial, timers := [] }

/-- Board shape of the data model: six rows of five cells. -/
def BoardWF (board : List (List String)) : Prop :=
  board.length = 6 ∧ ∀ row ∈ board, row.length = 5

instance (board : List (List String)) : Decidable (BoardWF board) := by
  unfold BoardWF; infer_instance

/-- Invariant of the sessions the controller reaches: a six by five board, the cursor and
the hint count within their ranges, and no letter at or after the cursor. -/
def SessionInv (s : GameState) : Prop :=
  BoardWF s.gameBoard ∧ s.currentRow ≤ 5 ∧ s.currentCol ≤ 5 ∧ s.hintsUsed ≤ 2 ∧
    s.maxHintsPerGame = 2 ∧
    ∀ r c, cellAt s.gameBoard r c ≠ "" →
      r < s.currentRow ∨ (r = s.currentRow ∧ c < s.currentCol)

/-- A session as `newGame` leaves it: cursor at the top left, not over, no key typed,
every cell empty. -/
def FreshSession (s : GameState) : Prop :=
  s.currentRow = 0 ∧ s.currentCol = 0 ∧ s.gameOver = false ∧ s.lastFiveKeys = [] ∧
    s.gameBoard = emptyBoard

/-- The key of the letter `c`: the one-character string. -/
def letterKey (c : Char) : String :=
  String.mk [c]

/-- The game used in the examples: the page just loaded, dictionary `["CRANE"]`. -/
def sampleGame : WordleGame :=
  { state := { GameState.initial with currentWord := "CRANE" }, timers := [] }

/-- The sample game after the guess `CLOAK` has been submitted and resolved: row 0 holds
`CLOAK`, the cursor is at the start of row 1. -/
def sampleGuessed : WordleGame :=
  { state :=
      { GameState.initial with
        currentWord := "CRANE"
        currentRow := 1
        lastFiveKeys := ["C", "L", "O", "A", "K"]
        gameBoard := ["C", "L", "O", "A", "K"] :: List.replicate 5 (List.replicate 5 "") }
    timers := [] }

/-- The sample game with the hint budget used up (a state built directly). -/
def sampleNoHints : WordleGame :=
  { state := { GameState.initial with currentWord := "CRANE", hintsUsed := 2 }, timers := [] }

/-- The sample game after the keys `C`, `R`, `A`, `N`, `E`: row 0 is full. -/
def sampleFull : WordleGame :=
  { state :=
      { GameState.initial with
        currentWord := "CRANE"
        currentCol := 5
        lastFiveKeys := ["C", "R", "A", "N", "E"]
        gameBoard := ["C", "R", "A", "N", "E"] :: List.replicate 5 (List.replicate 5 "") }
    timers := [] }

/-- A random draw used in the examples. -/
def sampleRand : Rand :=
  ⟨1, 2, by decide⟩

/-- The sample game after the key `C`. -/
def sampleTyped : WordleGame :=
  { state :=
      { GameState.initial with
        currentWord := "CRANE"
        currentCol := 1
        lastFiveKeys := ["C"]
        gameBoard := ["C", "", "", "", ""] :: List.replicate 5 (List.replicate 5 "") }
    timers := [] }

/-! ## Array lemmas -/

theorem jsGet_jsSet {α : Type} (hole : α) (a : List α) (i j : Nat) (v : α) :
    jsGet hole (jsSet hole a i v) j = if j = i then v else jsGet hole a j := by
  unfold jsGet jsSet
  by_cases hi : i < a.length
  · simp only [hi, if_true, List.getD_eq_getElem?_getD, List.getElem?_set]
    by_cases hji : j = i
    · subst hji; simp [hi]
    · have : ¬ i = j := fun h => hji h.symm
      simp [hji, this]
  · simp only [hi, if_false, List.getD_eq_getElem?_getD]
    by_cases hji : j = i
    · subst hji
      have hlen : (a ++ List.replicate (j - a.length) hole).length = j := by
        simp; omega
      rw [List.getElem?_append_right (by omega)]
      simp [hlen]
    · simp only [hji, if_false]
      by_cases hj : j < a.length
      · rw [List.append_assoc, List.getElem?_append_left hj]
      · have h1 : a[j]? = none := by simp; omega
        rw [h1]
        by_cases hj2 : j < i
        · rw [List.getElem?_append_left (by simp; omega),
            List.getElem?_append_right (by omega)]
          simp only [List.getElem?_replicate]
          split <;> rfl
        · rw [List.getElem?_eq_none (by simp; omega)]

theorem length_jsSet {α : Type} (hole : α) (a : List α) (i : Nat) (v : α) :
    (jsSet hole a i v).length = max a.length (i + 1) := by
  unfold jsSet
  by_cases hi : i < a.length
  · simp [hi]; omega
  · simp [hi]; omega

theorem jsGet_map_str (l : List Char) (j : Nat) :
    jsGet JSVal.undefined (l.map JSVal.str) j =
      match l[j]? with
      | some c => JSVal.str c
      | none => JSVal.undefined := by
  unfold jsGet
  simp only [List.getD_eq_getElem?_getD, List.getElem?_map]
  cases l[j]? <;> rfl

theorem firstPass_succ (ga : List JSVal) (n : Nat) (st : CheckState) :
    firstPass ga (n + 1) st = firstPassStep ga (firstPass ga n st) n := by
  simp [firstPass, List.range_succ]

theorem secondPass_succ (ga : List JSVal) (n : Nat) (st : CheckState) :
    secondPass ga (n + 1) st = secondPassStep ga (secondPass ga n st) n := by
  simp [secondPass, List.range_succ]

/-- State of `checkGuess` after `n` rounds of the first loop. -/
theorem firstPass_inv (ga wa : List JSVal) (n : Nat) (hn : n ≤ wa.length) :
    (firstPass ga n ⟨[], wa⟩).wordArray.length = wa.length ∧
    (firstPass ga n ⟨[], wa⟩).result.length ≤ n ∧
    (∀ j, jsGet JSVal.undefined (firstPass ga n ⟨[], wa⟩).wordArray j =
      if j < n ∧ jsGet JSVal.undefined ga j = jsGet JSVal.undefined wa j then JSVal.null
      else jsGet JSVal.undefined wa j) ∧
    (∀ j, jsGet none (firstPass ga n ⟨[], wa⟩).result j =
      if j < n ∧ jsGet JSVal.undefined ga j = jsGet JSVal.undefined wa j
      then some Verdict.correct else none) := by
  induction n with
  | zero => simp [firstPass, jsGet]
  | succ n ih =>
    obtain ⟨h1, h2, h3, h4⟩ := ih (by omega)
    rw [firstPass_succ]
    generalize firstPass ga n ⟨[], wa⟩ = st at h1 h2 h3 h4
    have hn3 := h3 n
    simp only [lt_irrefl, false_and, if_false] at hn3
    unfold firstPassStep
    rw [hn3]
    by_cases hc : jsGet JSVal.undefined ga n = jsGet JSVal.undefined wa n
    · simp only [hc, if_true]
      refine ⟨?_, ?_, ?_, ?_⟩
      · rw [length_jsSet]; omega
      · rw [length_jsSet]; omega
      · intro j
        rw [jsGet_jsSet, h3 j]
        by_cases hj : j = n
        · subst hj; simp [hc]
        · have : (j < n + 1) = (j < n) := by apply propext; omega
          simp [hj, this]
      · intro j
        rw [jsGet_jsSet, h4 j]
        by_cases hj : j = n
        · subst hj; simp [hc]
        · have : (j < n + 1) = (j < n) := by apply propext; omega
          simp [hj, this]
    · simp only [hc, if_false]
      refine ⟨h1, by omega, ?_, ?_⟩
      · intro j
        rw [h3 j]
        by_cases hj : j = n
        · subst hj; simp [hc]
        · have : (j < n + 1) = (j < n) := by apply propext; omega
          simp [this]
      · intro j
        rw [h4 j]
        by_cases hj : j = n
        · subst hj; simp [hc]
        · have : (j < n + 1) = (j < n) := by apply propext; omega
          simp [this]

theorem firstIndex_none (x : JSVal) (a : List JSVal) (h : firstIndex x a = none) :
    a.count x = 0 := by
  induction a with
  | nil => simp
  | cons y ys ih =>
    unfold firstIndex at h
    by_cases hy : y = x
    · simp [hy] at h
    · simp only [hy, if_false, Option.map_eq_none'] at h
      rw [List.count_cons, ih h]
      simp [hy]

theorem firstIndex_some (x : JSVal) (hx : x ≠ JSVal.null) (a : List JSVal) (k : Nat)
    (h : firstIndex x a = some k) :
    k < a.length ∧ ∀ y, y ≠ JSVal.null →
      (a.set k JSVal.null).count y + (if y = x then 1 else 0) = a.count y := by
  induction a generalizing k with
  | nil => simp [firstIndex] at h
  | cons z zs ih =>
    unfold firstIndex at h
    by_cases hz : z = x
    · simp only [hz, if_true, Option.some.injEq] at h
      subst h
      subst hz
      refine ⟨by simp, fun y hy => ?_⟩
      have hne : ¬ JSVal.null = y := fun e => hy e.symm
      by_cases hyz : y = z
      · subst hyz; simp [List.count_cons, hne]
      · have : ¬ z = y := fun e => hyz e.symm
        simp [List.count_cons, hne, hyz, this]
    · simp only [hz, if_false, Option.map_eq_some'] at h
      obtain ⟨k1, hk1, rfl⟩ := h
      obtain ⟨hlt, hcount⟩ := ih k1 hk1
      refine ⟨by simp; omega, fun y hy => ?_⟩
      have := hcount y hy
      simp only [List.set_cons_succ, List.count_cons]
      omega

theorem countP_range_succ (P : Nat → Bool) (n : Nat) :
    (List.range (n + 1)).countP P = (List.range n).countP P + (if P n then 1 else 0) := by
  rw [List.range_succ, List.countP_append]
  simp [List.countP_cons]

/-- State of `checkGuess` after `n` rounds of the second loop, started from a state whose
`result` holds `correct` exactly at the indices in `C`. -/
theorem secondPass_inv (g : List Char) (r1 : List (Option Verdict)) (w1 : List JSVal)
    (C : Nat → Bool)
    (hr1 : ∀ j, jsGet none r1 j = if C j then some Verdict.correct else none)
    (n : Nat) (hn : n ≤ g.length) :
    (∀ c, (secondPass (g.map JSVal.str) n ⟨r1, w1⟩).wordArray.count (JSVal.str c) =
      w1.count (JSVal.str c)
        - (List.range n).countP (fun j => decide (g[j]? = some c) && !C j)) ∧
    (secondPass (g.map JSVal.str) n ⟨r1, w1⟩).result.length ≤ max r1.length n ∧
    (∀ j c, g[j]? = some c →
      jsGet none (secondPass (g.map JSVal.str) n ⟨r1, w1⟩).result j =
        if C j then some Verdict.correct
        else if j < n then
          some (if (List.range j).countP (fun j => decide (g[j]? = some c) && !C j)
                  < w1.count (JSVal.str c)
                then Verdict.present else Verdict.absent)
        else none) := by
  induction n with
  | zero =>
    refine ⟨by simp [secondPass], by simp [secondPass], fun j c _ => ?_⟩
    simp [secondPass, hr1 j]
  | succ n ih =>
    obtain ⟨h1, h2, h3⟩ := ih (by omega)
    rw [secondPass_succ]
    generalize secondPass (g.map JSVal.str) n ⟨r1, w1⟩ = st at h1 h2 h3
    have hnlt : n < g.length := by omega
    obtain ⟨c0, hc0⟩ : ∃ c0, g[n]? = some c0 := ⟨g[n], by simp [hnlt]⟩
    have hg : jsGet JSVal.undefined (g.map JSVal.str) n = JSVal.str c0 := by
      rw [jsGet_map_str, hc0]
    have hrn := h3 n c0 hc0
    simp only [lt_irrefl, if_false] at hrn
    have hframe : ∀ j : Nat, j ≠ n → (j < n + 1) = (j < n) := by
      intro j hj; apply propext; omega
    unfold secondPassStep
    by_cases hC : C n = true
    · -- already correct: the step changes nothing
      simp only [hC, if_true] at hrn
      simp only [hrn, ne_eq, not_true_eq_false, if_false]
      refine ⟨fun c => ?_, by omega, fun j c hj => ?_⟩
      · rw [h1 c, countP_range_succ]; simp [hC]
      · rw [h3 j c hj]
        by_cases hjn : j = n
        · subst hjn; simp [hC]
        · simp [hframe j hjn]
    · simp only [hC, if_false] at hrn
      have hCf : C n = false := by simpa using hC
      simp only [hrn, ne_eq, not_false_eq_true, if_true, hg]
      have hidx : indexOf st.wordArray (JSVal.str c0) = firstIndex (JSVal.str c0) st.wordArray := by
        simp [indexOf]
      rw [hidx]
      cases hfi : firstIndex (JSVal.str c0) st.wordArray with
      | none =>
        have hzero := firstIndex_none _ _ hfi
        have hz0 := h1 c0
        rw [hzero] at hz0
        refine ⟨fun c => ?_, ?_, fun j c hj => ?_⟩
        · show st.wordArray.count (JSVal.str c) = _
          rw [h1 c, countP_range_succ]
          by_cases hcc : c0 = c
          · subst hcc; simp [hc0, hCf]; omega
          · simp [hc0, hcc]
        · show (jsSet none st.result n (some Verdict.absent)).length ≤ _
          rw [length_jsSet]; omega
        · show jsGet none (jsSet none st.result n (some Verdict.absent)) j = _
          rw [jsGet_jsSet]
          by_cases hjn : j = n
          · subst hjn
            have hcc : c = c0 := by rw [hc0] at hj; exact (Option.some.inj hj).symm
            subst hcc
            have : ¬ ((List.range j).countP (fun j => decide (g[j]? = some c) && !C j)
                < w1.count (JSVal.str c)) := by omega
            simp [hC, this]
          · simp only [hjn, if_false]
            rw [h3 j c hj]; simp only [hframe j hjn]
      | some k =>
        obtain ⟨hk, hcount⟩ := firstIndex_some (JSVal.str c0) (by simp) _ k hfi
        have hset : jsSet JSVal.undefined st.wordArray k JSVal.null
            = st.wordArray.set k JSVal.null := by
          simp [jsSet, hk]
        have hpos := hcount (JSVal.str c0) (by simp)
        simp only [if_true] at hpos
        have hz0 := h1 c0
        refine ⟨fun c => ?_, ?_, fun j c hj => ?_⟩
        · show (jsSet JSVal.undefined st.wordArray k JSVal.null).count (JSVal.str c) = _
          rw [hset, countP_range_succ]
          have hcc := hcount (JSVal.str c) (by simp)
          have hc1 := h1 c
          by_cases hcc0 : c0 = c
          · subst hcc0; simp [hc0, hCf] at hcc ⊢; omega
          · have hne : ¬ c = c0 := fun e => hcc0 e.symm
            simp [hc0, hcc0, hne] at hcc ⊢; omega
        · show (jsSet none st.result n (some Verdict.present)).length ≤ _
          rw [length_jsSet]; omega
        · show jsGet none (jsSet none st.result n (some Verdict.present)) j = _
          rw [jsGet_jsSet]
          by_cases hjn : j = n
          · subst hjn
            have hcc : c = c0 := by rw [hc0] at hj; exact (Option.some.inj hj).symm
            subst hcc
            have : (List.range j).countP (fun j => decide (g[j]? = some c) && !C j)
                < w1.count (JSVal.str c) := by omega
            simp [hC, this]
          · simp only [hjn, if_false]
            rw [h3 j c hj]; simp only [hframe j hjn]

theorem count_eq_countP_range (l : List JSVal) (x : JSVal) :
    l.count x = (List.range l.length).countP (fun j => decide (jsGet JSVal.undefined l j = x)) := by
  induction l using List.reverseRecOn with
  | nil => simp
  | append_singleton l a ih =>
    rw [List.length_append, List.length_singleton, countP_range_succ, List.count_append, ih]
    have h1 : jsGet JSVal.undefined (l ++ [a]) l.length = a := by
      simp [jsGet]
    have h2 : (List.range l.length).countP
          (fun j => decide (jsGet JSVal.undefined (l ++ [a]) j = x))
        = (List.range l.length).countP (fun j => decide (jsGet JSVal.undefined l j = x)) := by
      apply List.countP_congr
      intro j hj
      have hj1 : j < l.length := List.mem_range.mp hj
      simp [jsGet, List.getElem?_append_left hj1]
    rw [h1, h2]
    by_cases hax : a = x <;> simp [hax, List.count_cons]

theorem countP_add_countP (l : List Nat) (p q r : Nat → Bool)
    (h : ∀ j ∈ l, (if p j then 1 else 0) + (if q j then 1 else 0) = (if r j then 1 else 0 : Nat)) :
    l.countP p + l.countP q = l.countP r := by
  induction l with
  | nil => simp
  | cons a l ih =>
    have h1 := h a (by simp)
    have h2 := ih (fun j hj => h j (by simp [hj]))
    simp only [List.countP_cons]
    omega

/-- The pool left by the first loop holds, of each letter, its occurrences in the secret
word that were not matched exactly. -/
theorem count_firstPass (secret guess : String) (hs : secret.length = 5)
    (hg : guess.length = 5) (c : Char) :
    (firstPass (split guess) 5 ⟨[], split secret⟩).wordArray.count (JSVal.str c)
      + exactMatches secret guess c = secret.toList.count c := by
  have hlen : (split secret).length = 5 := by simpa [split] using hs
  obtain ⟨h1, _, h3, _⟩ := firstPass_inv (split guess) (split secret) 5 (by omega)
  have hsc : secret.toList.count c = (split secret).count (JSVal.str c) := by
    unfold split
    rw [List.count_map_of_injective _ _ (fun a b h => by injection h)]
  rw [hsc, count_eq_countP_range, count_eq_countP_range (split secret), h1, hlen]
  unfold exactMatches
  apply countP_add_countP
  intro j hj
  have hj5 : j < 5 := List.mem_range.mp hj
  rw [h3 j]
  have hgl : j < guess.toList.length := by simpa using (by omega : j < guess.length)
  have hsl : j < secret.toList.length := by simpa using (by omega : j < secret.length)
  obtain ⟨a, ha⟩ : ∃ a, guess.toList[j]? = some a := ⟨guess.toList[j], by simp [hgl]⟩
  obtain ⟨b, hb⟩ : ∃ b, secret.toList[j]? = some b := ⟨secret.toList[j], by simp [hsl]⟩
  simp only [split, jsGet_map_str, ha, hb, hj5, true_and, JSVal.str.injEq, Option.some.injEq]
  by_cases hab : a = b
  · subst hab
    by_cases hac : a = c <;> simp [hac]
  · by_cases hbc : b = c
    · subst hbc; simp [hab]
    · simp [hab, hbc]

/-- Every position of `checkGuess`, for a five-letter secret word and guess. -/
theorem checkGuess_get (secret guess : String) (hs : secret.length = 5)
    (hg : guess.length = 5) (i : Nat) (hi : i < 5) (c : Char)
    (hc : guess.toList[i]? = some c) :
    jsGet none (checkGuess secret guess) i =
      some (if secret.toList[i]? = some c then Verdict.correct
        else if misplacedBefore secret guess c i
            < secret.toList.count c - exactMatches secret guess c then Verdict.present
        else Verdict.absent) := by
  obtain ⟨_, _, h3, h4⟩ := firstPass_inv (split guess) (split secret) 5
    (by simp [split]; omega)
  have hK := count_firstPass secret guess hs hg c
  have hgl : guess.toList.length = 5 := by simpa using hg
  have hsl : secret.toList.length = 5 := by simpa using hs
  obtain ⟨_, _, k3⟩ := secondPass_inv guess.toList
    (firstPass (split guess) 5 ⟨[], split secret⟩).result
    (firstPass (split guess) 5 ⟨[], split secret⟩).wordArray
    (fun j => decide (j < 5 ∧
      jsGet JSVal.undefined (split guess) j = jsGet JSVal.undefined (split secret) j))
    (fun j => by rw [h4 j]; simp) 5 (by omega)
  have hC : ∀ j, j < 5 → ∀ a, guess.toList[j]? = some a →
      ((j < 5 ∧ jsGet JSVal.undefined (split guess) j = jsGet JSVal.undefined (split secret) j)
        ↔ secret.toList[j]? = some a) := by
    intro j hj a ha
    have hjl : j < secret.toList.length := by omega
    obtain ⟨b, hb⟩ : ∃ b, secret.toList[j]? = some b := ⟨secret.toList[j], by simp [hjl]⟩
    simp only [split, jsGet_map_str, ha, hb, hj, true_and, JSVal.str.injEq, Option.some.injEq]
    exact eq_comm
  have hN : (List.range i).countP (fun j => decide (guess.toList[j]? = some c) &&
        !decide (j < 5 ∧ jsGet JSVal.undefined (split guess) j
          = jsGet JSVal.undefined (split secret) j))
      = misplacedBefore secret guess c i := by
    unfold misplacedBefore
    apply List.countP_congr
    intro j hj
    have hj5 : j < 5 := by have := List.mem_range.mp hj; omega
    simp only [Bool.and_eq_true, decide_eq_true_eq, Bool.not_eq_true', decide_eq_false_iff_not]
    constructor
    · rintro ⟨h1, h2⟩
      refine ⟨h1, fun e => h2 ((hC j hj5 c h1).mpr ?_)⟩
      rw [← e, h1]
    · rintro ⟨h1, h2⟩
      refine ⟨h1, fun e => h2 ?_⟩
      rw [(hC j hj5 c h1).mp e, h1]
  have hres := k3 i c hc
  have hdef : jsGet none (checkGuess secret guess) i =
      jsGet none (secondPass (guess.toList.map JSVal.str) 5
        ⟨(firstPass (split guess) 5 ⟨[], split secret⟩).result,
          (firstPass (split guess) 5 ⟨[], split secret⟩).wordArray⟩).result i := rfl
  rw [hdef, hres, hN]
  have hKc : (firstPass (split guess) 5 ⟨[], split secret⟩).wordArray.count (JSVal.str c)
      = secret.toList.count c - exactMatches secret guess c := by omega
  rw [hKc]
  by_cases hcor : secret.toList[i]? = some c
  · have := (hC i hi c hc).mpr hcor
    rw [if_pos (decide_eq_true this), if_pos hcor]
  · have : ¬ (i < 5 ∧ jsGet JSVal.undefined (split guess) i
        = jsGet JSVal.undefined (split secret) i) := fun h => hcor ((hC i hi c hc).mp h)
    rw [if_neg (fun h => this (of_decide_eq_true h)), if_pos hi, if_neg hcor]

theorem checkGuess_length_le (secret guess : String) (hs : secret.length = 5)
    (hg : guess.length = 5) : (checkGuess secret guess).length ≤ 5 := by
  obtain ⟨_, h2, _, h4⟩ := firstPass_inv (split guess) (split secret) 5
    (by simp [split]; omega)
  have hgl : guess.toList.length = 5 := by simpa using hg
  obtain ⟨_, k2, _⟩ := secondPass_inv guess.toList
    (firstPass (split guess) 5 ⟨[], split secret⟩).result
    (firstPass (split guess) 5 ⟨[], split secret⟩).wordArray
    (fun j => decide (j < 5 ∧
      jsGet JSVal.undefined (split guess) j = jsGet JSVal.undefined (split secret) j))
    (fun j => by rw [h4 j]; simp) 5 (by omega)
  have hdef : (checkGuess secret guess).length =
      (secondPass (guess.toList.map JSVal.str) 5
        ⟨(firstPass (split guess) 5 ⟨[], split secret⟩).result,
          (firstPass (split guess) 5 ⟨[], split secret⟩).wordArray⟩).result.length := rfl
  rw [hdef]
  omega

theorem countP_capped (M : Nat → Bool) (K n : Nat) :
    (List.range n).countP (fun i => M i && decide ((List.range i).countP M < K))
      = min ((List.range n).countP M) K := by
  induction n with
  | zero => simp
  | succ n ih =>
    rw [countP_range_succ, countP_range_succ, ih]
    by_cases hM : M n = true
    · by_cases hlt : (List.range n).countP M < K
      · simp [hM, hlt]; omega
      · simp [hM, hlt]; omega
    · simp [hM]

/-- C1: for a secret word and a guess of five letters, position `i` of `checkGuess` is
`correct` exactly when `guess[i] = secret[i]`; otherwise, with `c = guess[i]` and `k` the
occurrences of `c` in the secret word minus the positions where guess and secret both hold
`c`, it is `present` exactly when fewer than `k` positions `j < i` hold `c` in the guess
without matching the secret word, and `absent` in every remaining case. -/
theorem checkGuess_verdict (secret guess : String) (hs : secret.length = 5)
    (hg : guess.length = 5) (i : Nat) (hi : i < 5) (c : Char)
    (hc : guess.toList[i]? = some c) :
    (jsGet none (checkGuess secret guess) i = some Verdict.correct
        ↔ secret.toList[i]? = some c) ∧
    (secret.toList[i]? ≠ some c →
      (jsGet none (checkGuess secret guess) i = some Verdict.present
        ↔ misplacedBefore secret guess c i
            < secret.toList.count c - exactMatches secret guess c) ∧
      (¬ misplacedBefore secret guess c i
            < secret.toList.count c - exactMatches secret guess c →
        jsGet none (checkGuess secret guess) i = some Verdict.absent)) := by
  have h := checkGuess_get secret guess hs hg i hi c hc
  refine ⟨?_, fun hne => ⟨?_, fun hk => ?_⟩⟩
  · rw [h]
    by_cases h1 : secret.toList[i]? = some c
    · simp only [h1, if_true]
    · rw [if_neg h1]
      simp only [h1, iff_false]
      split <;> simp
  · rw [h, if_neg hne]
    by_cases h2 : misplacedBefore secret guess c i
        < secret.toList.count c - exactMatches secret guess c
    · simp only [h2, if_true]
    · rw [if_neg h2]
      simp only [h2, iff_false]
      simp
  · rw [h, if_neg hne, if_neg hk]

/-- Instance of `checkGuess_verdict`: the last letter of `ERASE` against `SPEED`. -/
theorem checkGuess_verdict_witness :
    ("SPEED".length = 5 ∧ "ERASE".length = 5 ∧ "ERASE".toList[4]? = some 'E'
      ∧ "SPEED".toList[4]? ≠ some 'E') ∧
    (jsGet none (checkGuess "SPEED" "ERASE") 4 = some Verdict.present
      ↔ misplacedBefore "SPEED" "ERASE" 'E' 4
          < "SPEED".toList.count 'E' - exactMatches "SPEED" "ERASE" 'E') :=
  ⟨by decide,
    ((checkGuess_verdict "SPEED" "ERASE" (by decide) (by decide) 4 (by decide) 'E'
      (by decide)).2 (by decide)).1⟩

/-- C2: for a secret word and a guess of length 5, `checkGuess` returns exactly five
verdicts (no hole), and for every letter `c` the positions of the guess that hold `c` and
are `correct` or `present` are at most as many as the occurrences of `c` in the secret
word. -/
theorem checkGuess_five_verdicts (secret guess : String) (hs : secret.length = 5)
    (hg : guess.length = 5) :
    (checkGuess secret guess).length = 5 ∧
    (∀ i, i < 5 → ∃ v : Verdict, (checkGuess secret guess)[i]? = some (some v)) ∧
    (∀ c : Char,
      (List.range 5).countP (fun i => decide (guess.toList[i]? = some c ∧
          (jsGet none (checkGuess secret guess) i = some Verdict.correct ∨
            jsGet none (checkGuess secret guess) i = some Verdict.present)))
        ≤ secret.toList.count c) := by
  have hgl : guess.toList.length = 5 := by simpa using hg
  have hle := checkGuess_length_le secret guess hs hg
  have hget : ∀ i, i < 5 → ∃ v : Verdict, (checkGuess secret guess)[i]? = some (some v) := by
    intro i hi
    have hil : i < guess.toList.length := by omega
    obtain ⟨v, h⟩ : ∃ v : Verdict, jsGet none (checkGuess secret guess) i = some v :=
      ⟨_, checkGuess_get secret guess hs hg i hi guess.toList[i] (by simp [hil])⟩
    refine ⟨v, ?_⟩
    unfold jsGet at h
    rw [List.getD_eq_getElem?_getD] at h
    cases hr : (checkGuess secret guess)[i]? with
    | none => rw [hr] at h; simp at h
    | some x => rw [hr] at h; simp only [Option.getD_some] at h; rw [h]
  refine ⟨?_, hget, fun c => ?_⟩
  · obtain ⟨v, hv⟩ := hget 4 (by omega)
    have : 4 < (checkGuess secret guess).length := by
      by_contra hcon
      rw [List.getElem?_eq_none (by omega)] at hv
      simp at hv
    omega
  · have hK := count_firstPass secret guess hs hg c
    have hcap := countP_capped
      (fun j => decide (guess.toList[j]? = some c ∧ guess.toList[j]? ≠ secret.toList[j]?))
      (secret.toList.count c - exactMatches secret guess c) 5
    have hsum : (List.range 5).countP
          (fun j => decide (guess.toList[j]? = some c ∧ secret.toList[j]? = some c))
        + (List.range 5).countP (fun i =>
            decide (guess.toList[i]? = some c ∧ guess.toList[i]? ≠ secret.toList[i]?) &&
            decide ((List.range i).countP
              (fun j => decide (guess.toList[j]? = some c ∧
                guess.toList[j]? ≠ secret.toList[j]?))
              < secret.toList.count c - exactMatches secret guess c))
        = (List.range 5).countP (fun i => decide (guess.toList[i]? = some c ∧
          (jsGet none (checkGuess secret guess) i = some Verdict.correct ∨
            jsGet none (checkGuess secret guess) i = some Verdict.present))) := by
      apply countP_add_countP
      intro j hj
      have hj5 : j < 5 := List.mem_range.mp hj
      by_cases hgc : guess.toList[j]? = some c
      · have h := checkGuess_get secret guess hs hg j hj5 c hgc
        rw [h]
        have hmb : (List.range j).countP
            (fun j => decide (guess.toList[j]? = some c ∧
              guess.toList[j]? ≠ secret.toList[j]?)) = misplacedBefore secret guess c j := rfl
        rw [hmb, hgc]
        generalize secret.toList[j]? = b
        generalize misplacedBefore secret guess c j = m
        generalize secret.toList.count c - exactMatches secret guess c = K
        by_cases hsc : b = some c
        · subst hsc; simp
        · have hne : ¬ (some c = b) := fun e => hsc e.symm
          by_cases hk : m < K
          · simp [hsc, hne, hk]
          · simp [hsc, hne, hk]
      · have h1 : ∀ q : Prop, (guess.toList[j]? = some c ∧ q) = False := fun q =>
          eq_false (fun h => hgc h.1)
        simp only [h1]
        simp
    rw [← hsum, hcap]
    have hex : (List.range 5).countP
          (fun j => decide (guess.toList[j]? = some c ∧ secret.toList[j]? = some c))
        = exactMatches secret guess c := rfl
    rw [hex]
    omega

/-- Instance of `checkGuess_five_verdicts` at secret word `SPEED`, guess `ERASE`. -/
theorem checkGuess_five_verdicts_witness :
    ("SPEED".length = 5 ∧ "ERASE".length = 5) ∧ (checkGuess "SPEED" "ERASE").length = 5 :=
  ⟨by decide, (checkGuess_five_verdicts "SPEED" "ERASE" (by decide) (by decide)).1⟩

/-- C3 as stated fails: with secret word `SPEED` and guess `ERASE` the result is not
`[present, absent, absent, present, correct]`. -/
theorem speed_erase_last_not_correct :
    checkGuess "SPEED" "ERASE" ≠
      [some Verdict.present, some Verdict.absent, some Verdict.absent,
        some Verdict.present, some Verdict.correct] := by
  decide

/-- C3 amended: with secret word `SPEED` and guess `ERASE`, `checkGuess` returns
`[present, absent, absent, present, present]`: the last `E` faces `D`, and the second `E`
of the secret word is still in the pool. -/
theorem checkGuess_SPEED_ERASE :
    checkGuess "SPEED" "ERASE" =
      [some Verdict.present, some Verdict.absent, some Verdict.absent,
        some Verdict.present, some Verdict.present] := by
  decide

/-! ## Board writes and key handling -/

theorem setCell_spec (board : List (List String)) (r c : Nat) (v : String)
    (hr : r < board.length) :
    ∃ b1, setCell board r c v = some b1 ∧ b1.length = board.length ∧
      ∀ r1 c1, cellAt b1 r1 c1 = if r1 = r ∧ c1 = c then v else cellAt board r1 c1 := by
  refine ⟨board.set r (jsSet "" board[r] c v), ?_, by simp, fun r1 c1 => ?_⟩
  · simp [setCell, hr]
  · unfold cellAt
    by_cases h1 : r1 = r
    · subst h1
      have hrow : (board.set r1 (jsSet "" board[r1] c v)).getD r1 [] = jsSet "" board[r1] c v := by
        simp [List.getD_eq_getElem?_getD, hr]
      have hold : board.getD r1 [] = board[r1] := by
        simp [List.getD_eq_getElem?_getD, hr]
      rw [hrow, hold]
      have := jsGet_jsSet "" board[r1] c c1 v
      unfold jsGet at this
      rw [this]
      by_cases h2 : c1 = c <;> simp [h2]
    · have hne : ¬ r = r1 := fun e => h1 e.symm
      simp [List.getD_eq_getElem?_getD, List.getElem?_set, hne, h1]

theorem letterKey_isLetterKey (c : Char) (hc : 'A' ≤ c ∧ c ≤ 'Z') :
    isLetterKey (letterKey c) = true := by
  simp [isLetterKey, letterKey, hc]

theorem isLetterKey_length (key : String) (h : isLetterKey key = true) : key.length = 1 := by
  simp [isLetterKey] at h
  exact h.2

theorem isLetterKey_not_control (key : String) (h : isLetterKey key = true) :
    ¬ (key = "ENTER" ∨ key = "Enter") ∧ ¬ (key = "BACKSPACE" ∨ key = "Backspace") := by
  have hl := isLetterKey_length key h
  refine ⟨?_, ?_⟩ <;> rintro (rfl | rfl) <;> revert hl <;> decide

/-- A letter key that does not complete `QWERT`, typed while the row has room. -/
theorem letterKey_written (g : WordleGame) (key : String)
    (hkey : isLetterKey key = true) (hover : g.state.gameOver = false)
    (hcol : g.state.currentCol < 5)
    (hq : String.join (keyHistory g.state key) ≠ "QWERT") :
    handleKeyPress g key =
      match setCell g.state.gameBoard g.state.currentRow g.state.currentCol key with
      | none => none
      | some b =>
        some { g with state :=
          { g.state with
            lastFiveKeys := keyHistory g.state key
            gameBoard := b
            currentCol := g.state.currentCol + 1 } } := by
  obtain ⟨h1, h2⟩ := isLetterKey_not_control key hkey
  simp only [handleKeyPress, trackKey, hover, hkey, hq, h1, h2, hcol, if_true, if_false,
    Bool.false_eq_true, and_self]

/-- A letter key that completes `QWERT`: only the key history changes. -/
theorem qwertKey_ignored (g : WordleGame) (key : String)
    (hkey : isLetterKey key = true) (hover : g.state.gameOver = false)
    (hq : String.join (keyHistory g.state key) = "QWERT") :
    handleKeyPress g key = some { g with state := { g.state with lastFiveKeys := [] } } := by
  simp only [handleKeyPress, trackKey, hover, hkey, hq, if_true, Bool.false_eq_true, if_false]

/-- A backspace key typed while the row is not empty. -/
theorem backspaceKey_erases (g : WordleGame) (key : String)
    (hkey : key = "BACKSPACE" ∨ key = "Backspace") (hover : g.state.gameOver = false)
    (hcol : 0 < g.state.currentCol) :
    handleKeyPress g key =
      match setCell g.state.gameBoard g.state.currentRow (g.state.currentCol - 1) "" with
      | none => none
      | some b =>
        some { g with state :=
          { g.state with currentCol := g.state.currentCol - 1, gameBoard := b } } := by
  have hnl : isLetterKey key = false := by rcases hkey with rfl | rfl <;> decide
  have hne : ¬ (key = "ENTER" ∨ key = "Enter") := by
    rcases hkey with rfl | rfl <;> decide
  simp only [handleKeyPress, trackKey, hover, hnl, hne, hkey, hcol, if_true, if_false,
    Bool.false_eq_true, gt_iff_lt]

theorem list_length_five {α : Type} (l : List α) (h : l.length = 5) :
    ∃ a b c d e, l = [a, b, c, d, e] := by
  match l, h with
  | [a, b, c, d, e], _ => exact ⟨a, b, c, d, e, rfl⟩

theorem list_length_six {α : Type} (l : List α) (h : l.length = 6) :
    ∃ a b c d e f, l = [a, b, c, d, e, f] := by
  match l, h with
  | [a, b, c, d, e, f], _ => exact ⟨a, b, c, d, e, f, rfl⟩

/-- The inner loop of `resetBoard` on a row of five cells. -/
theorem rowReset (board : List (List String)) (i : Nat) (row : List String)
    (hi : board[i]? = some row) (hrow : row.length = 5) :
    (List.range 5).foldlM (fun b j => setCell b i j "") board
      = some (board.set i (List.replicate 5 "")) := by
  obtain ⟨a, b, c, d, e, rfl⟩ := list_length_five row hrow
  have hlt : i < board.length := by
    by_contra h
    rw [List.getElem?_eq_none (by omega)] at hi
    simp at hi
  have hr : List.range 5 = [0, 1, 2, 3, 4] := by decide
  rw [hr]
  simp [List.foldlM, setCell, hi, jsSet, hlt]

/-- On a six by five board `resetBoard` raises no error and empties every cell. -/
theorem resetBoard_wf (board : List (List String)) (h : BoardWF board) :
    resetBoard board = some emptyBoard := by
  obtain ⟨hl, hr⟩ := h
  obtain ⟨r0, r1, r2, r3, r4, r5, rfl⟩ := list_length_six board hl
  have h0 := hr r0 (by simp)
  have h1 := hr r1 (by simp)
  have h2 := hr r2 (by simp)
  have h3 := hr r3 (by simp)
  have h4 := hr r4 (by simp)
  have h5 := hr r5 (by simp)
  have hrg : List.range 6 = [0, 1, 2, 3, 4, 5] := by decide
  unfold resetBoard
  rw [hrg]
  simp only [List.foldlM_cons, List.foldlM_nil]
  rw [rowReset _ 0 r0 rfl h0]
  simp only [Option.bind_eq_bind, Option.some_bind, List.set_cons_zero]
  rw [rowReset _ 1 r1 rfl h1]
  simp only [Option.bind_eq_bind, Option.some_bind, List.set_cons_zero, List.set_cons_succ]
  rw [rowReset _ 2 r2 rfl h2]
  simp only [Option.bind_eq_bind, Option.some_bind, List.set_cons_zero, List.set_cons_succ]
  rw [rowReset _ 3 r3 rfl h3]
  simp only [Option.bind_eq_bind, Option.some_bind, List.set_cons_zero, List.set_cons_succ]
  rw [rowReset _ 4 r4 rfl h4]
  simp only [Option.bind_eq_bind, Option.some_bind, List.set_cons_zero, List.set_cons_succ]
  rw [rowReset _ 5 r5 rfl h5]
  rfl

theorem cellAt_emptyBoard (r c : Nat) (hr : r < 6) (hc : c < 5) :
    cellAt emptyBoard r c = "" := by
  interval_cases r <;> interval_cases c <;> rfl

theorem floorMul_lt (rnd : Rand) (n : Nat) (hn : 0 < n) : rnd.floorMul n < n := by
  unfold Rand.floorMul
  have hlt := rnd.lt
  have hd : 0 < rnd.den := by omega
  rw [Nat.div_lt_iff_lt_mul hd]
  exact Nat.mul_comm n rnd.den ▸ Nat.mul_lt_mul_of_pos_right hlt hn

/-! ## Resolution of a submitted row and statistics -/

/-- C4: when the deferred callback of `submitGuess` runs: if the guess equals the secret
word, `gameOver` becomes true and a win is recorded (`gamesPlayed + 1`, `gamesWon + 1`,
`currentStreak + 1`); otherwise, if `currentRow = 5`, `gameOver` becomes true and a loss is
recorded (`gamesPlayed + 1`, `currentStreak = 0`); otherwise `currentRow` increases by 1,
`currentCol` becomes 0, and `gameOver` and the statistics are unchanged. -/
theorem submitCallback_outcome (guess : String) (s : GameState) :
    if guess = s.currentWord then
      (submitCallback guess s).gameOver = true ∧
      (submitCallback guess s).stats.gamesPlayed = s.stats.gamesPlayed + 1 ∧
      (submitCallback guess s).stats.gamesWon = s.stats.gamesWon + 1 ∧
      (submitCallback guess s).stats.currentStreak = s.stats.currentStreak + 1
    else if s.currentRow = 5 then
      (submitCallback guess s).gameOver = true ∧
      (submitCallback guess s).stats.gamesPlayed = s.stats.gamesPlayed + 1 ∧
      (submitCallback guess s).stats.currentStreak = 0
    else
      (submitCallback guess s).currentRow = s.currentRow + 1 ∧
      (submitCallback guess s).currentCol = 0 ∧
      (submitCallback guess s).gameOver = s.gameOver ∧
      (submitCallback guess s).stats = s.stats := by
  simp only [submitCallback, handleWin, handleLoss, GameState.updateStats, Stats.update]
  split_ifs <;> first | contradiction | simp

/-- C9: `updateStats(won)` increases `gamesPlayed` by exactly 1; if `won`, it increases
`gamesWon` and `currentStreak` by 1 and sets `maxStreak` to the maximum of the old
`maxStreak` and the new `currentStreak`; if not, it sets `currentStreak` to 0 and leaves
`gamesWon` and `maxStreak` unchanged. -/
theorem updateStats_spec (s : GameState) (won : Bool) :
    (s.updateStats won).stats.gamesPlayed = s.stats.gamesPlayed + 1 ∧
    (if won = true then
      (s.updateStats won).stats.gamesWon = s.stats.gamesWon + 1 ∧
      (s.updateStats won).stats.currentStreak = s.stats.currentStreak + 1 ∧
      (s.updateStats won).stats.maxStreak = max s.stats.maxStreak (s.stats.currentStreak + 1)
    else
      (s.updateStats won).stats.currentStreak = 0 ∧
      (s.updateStats won).stats.gamesWon = s.stats.gamesWon ∧
      (s.updateStats won).stats.maxStreak = s.stats.maxStreak) := by
  cases won
  · simp [GameState.updateStats, Stats.update]
  · simp only [GameState.updateStats, Stats.update]
    split_ifs <;> simp <;> omega

/-- C10 fails on the code: in one session (secret word `CRANE`, no `newGame` in between),
typing `CRANE` and pressing ENTER twice before the first callback fires schedules two
callbacks, and each of them calls `updateStats`: `gamesPlayed` goes from 0 to 2. -/
theorem double_enter_counts_twice :
    sampleGame.state.stats.gamesPlayed = 0 ∧
    (run ["CRANE"] sampleGame
      [Event.key "C", Event.key "R", Event.key "A", Event.key "N", Event.key "E",
        Event.key "ENTER", Event.key "ENTER", Event.timer, Event.timer]).map
      (fun g => (g.state.gameOver, g.state.stats.gamesPlayed, g.state.stats.gamesWon))
      = some (true, 2, 2) := by
  decide

/-! ## Key input -/

/-- C5 as stated fails: in the sample game (not over) after `Q`, `W`, `E`, `R` the cursor
is at column 4; the letter `T` then writes nothing and leaves `currentCol` at 4, so the five
letter inputs `Q`, `W`, `E`, `R`, `T` from a fresh session do not fill row 0. -/
theorem letter_T_after_QWER_ignored :
    (run ["CRANE"] sampleGame
      [Event.key "Q", Event.key "W", Event.key "E", Event.key "R"]).map
      (fun g => (g.state.gameOver, g.state.currentCol)) = some (false, 4) ∧
    (run ["CRANE"] sampleGame
      [Event.key "Q", Event.key "W", Event.key "E", Event.key "R", Event.key "T"]).map
      (fun g => (g.state.currentCol, cellAt g.state.gameBoard 0 4)) = some (4, "") := by
  decide

/-- C5 amended: in a session that is not over, with `currentCol < 5` (and the current row
on the board), a letter key `A`-`Z` that does not complete the key sequence `QWERT` writes
the letter at `(currentRow, currentCol)` and increases `currentCol` by 1, leaving every
other cell, `currentRow`, `gameOver` and `hintsUsed` unchanged; a letter key that completes
`QWERT` leaves the board, `currentRow`, `currentCol`, `gameOver` and `hintsUsed` unchanged.
In particular, from a fresh session any five letter inputs other than `Q`, `W`, `E`, `R`,
`T` fill row 0 and leave `currentCol = 5`. -/
theorem handleKeyPress_letter :
    (∀ (g : WordleGame) (c : Char), ('A' ≤ c ∧ c ≤ 'Z') → g.state.gameOver = false →
      g.state.currentCol < 5 → g.state.currentRow < g.state.gameBoard.length →
      (String.join (keyHistory g.state (letterKey c)) ≠ "QWERT" →
        ∃ g1, handleKeyPress g (letterKey c) = some g1 ∧
          cellAt g1.state.gameBoard g.state.currentRow g.state.currentCol = letterKey c ∧
          g1.state.currentCol = g.state.currentCol + 1 ∧
          (∀ r k, ¬ (r = g.state.currentRow ∧ k = g.state.currentCol) →
            cellAt g1.state.gameBoard r k = cellAt g.state.gameBoard r k) ∧
          g1.state.currentRow = g.state.currentRow ∧
          g1.state.gameOver = g.state.gameOver ∧
          g1.state.hintsUsed = g.state.hintsUsed) ∧
      (String.join (keyHistory g.state (letterKey c)) = "QWERT" →
        ∃ g1, handleKeyPress g (letterKey c) = some g1 ∧
          g1.state.gameBoard = g.state.gameBoard ∧
          g1.state.currentCol = g.state.currentCol ∧
          g1.state.currentRow = g.state.currentRow ∧
          g1.state.gameOver = g.state.gameOver ∧
          g1.state.hintsUsed = g.state.hintsUsed)) ∧
    (∀ (WORDS : List String) (g : WordleGame) (c1 c2 c3 c4 c5 : Char),
      FreshSession g.state → (∀ c ∈ [c1, c2, c3, c4, c5], 'A' ≤ c ∧ c ≤ 'Z') →
      [c1, c2, c3, c4, c5] ≠ ['Q', 'W', 'E', 'R', 'T'] →
      ∃ g1, run WORDS g
          [Event.key (letterKey c1), Event.key (letterKey c2), Event.key (letterKey c3),
            Event.key (letterKey c4), Event.key (letterKey c5)] = some g1 ∧
        g1.state.gameBoard.getD 0 [] =
          [letterKey c1, letterKey c2, letterKey c3, letterKey c4, letterKey c5] ∧
        g1.state.currentRow = 0 ∧ g1.state.currentCol = 5) := by
  refine ⟨fun g c hc hover hcol hrow => ⟨fun hq => ?_, fun hq => ?_⟩, ?_⟩
  · obtain ⟨b1, hb1, _, hcell⟩ := setCell_spec g.state.gameBoard g.state.currentRow
      g.state.currentCol (letterKey c) hrow
    refine ⟨{ g with state :=
      { g.state with
        lastFiveKeys := keyHistory g.state (letterKey c)
        gameBoard := b1
        currentCol := g.state.currentCol + 1 } }, ?_, ?_⟩
    · rw [letterKey_written g _ (letterKey_isLetterKey c hc) hover hcol hq, hb1]
    · refine ⟨?_, rfl, fun r k hrk => ?_, rfl, rfl, rfl⟩
      · show cellAt b1 _ _ = _
        rw [hcell]; simp
      · show cellAt b1 _ _ = _
        rw [hcell, if_neg hrk]
  · exact ⟨_, qwertKey_ignored g _ (letterKey_isLetterKey c hc) hover hq,
      rfl, rfl, rfl, rfl, rfl⟩
  · intro WORDS g c1 c2 c3 c4 c5 hf hc hne
    obtain ⟨⟨w, r, k, o, b, l, hu, m, st⟩, tm⟩ := g
    obtain ⟨h1, h2, h3, h4, h5⟩ := hf
    simp only at h1 h2 h3 h4 h5
    subst h1 h2 h3 h4 h5
    have hc1 := hc c1 (by simp)
    have hc2 := hc c2 (by simp)
    have hc3 := hc c3 (by simp)
    have hc4 := hc c4 (by simp)
    have hc5 := hc c5 (by simp)
    have hne5 : ¬ (c1 = 'Q' ∧ c2 = 'W' ∧ c3 = 'E' ∧ c4 = 'R' ∧ c5 = 'T') := by
      intro h; apply hne; simp [h]
    simp [run, step, handleKeyPress, trackKey, keyHistory, isLetterKey, letterKey,
      hc1, hc2, hc3, hc4, hc5, hne5, setCell, emptyBoard, jsSet, String.join, String.ext_iff]

/-- Instance of `handleKeyPress_letter`: the letter `C` typed into the sample game. -/
theorem handleKeyPress_letter_witness :
    ∃ g1, handleKeyPress sampleGame (letterKey 'C') = some g1 ∧
      cellAt g1.state.gameBoard 0 0 = "C" ∧ g1.state.currentCol = 1 := by
  obtain ⟨g1, h1, h2, h3, _⟩ :=
    (handleKeyPress_letter.1 sampleGame 'C' (by decide) rfl (by decide) (by decide)).1
      (by decide)
  exact ⟨g1, h1, h2, h3⟩

/-- C6: in a session that is not over, with `currentCol > 0` (and the current row on the
board), a backspace key decreases `currentCol` by 1 and empties the cell at
`(currentRow, new currentCol)`, leaving every other cell, `currentRow`, `gameOver`,
`hintsUsed` and the statistics unchanged. -/
theorem handleKeyPress_backspace (g : WordleGame) (key : String)
    (hkey : key = "BACKSPACE" ∨ key = "Backspace")
    (hover : g.state.gameOver = false) (hcol : 0 < g.state.currentCol)
    (hrow : g.state.currentRow < g.state.gameBoard.length) :
    ∃ g1, handleKeyPress g key = some g1 ∧
      g1.state.currentCol = g.state.currentCol - 1 ∧
      cellAt g1.state.gameBoard g.state.currentRow (g.state.currentCol - 1) = "" ∧
      (∀ r k, ¬ (r = g.state.currentRow ∧ k = g.state.currentCol - 1) →
        cellAt g1.state.gameBoard r k = cellAt g.state.gameBoard r k) ∧
      g1.state.currentRow = g.state.currentRow ∧
      g1.state.gameOver = g.state.gameOver ∧
      g1.state.hintsUsed = g.state.hintsUsed ∧
      g1.state.stats = g.state.stats := by
  obtain ⟨b1, hb1, _, hcell⟩ := setCell_spec g.state.gameBoard g.state.currentRow
    (g.state.currentCol - 1) "" hrow
  refine ⟨{ g with state :=
    { g.state with currentCol := g.state.currentCol - 1, gameBoard := b1 } }, ?_, ?_⟩
  · rw [backspaceKey_erases g key hkey hover hcol, hb1]
  · refine ⟨rfl, ?_, fun r k hrk => ?_, rfl, rfl, rfl, rfl⟩
    · show cellAt b1 _ _ = _
      rw [hcell]; simp
    · show cellAt b1 _ _ = _
      rw [hcell, if_neg hrk]

/-- Instance of `handleKeyPress_backspace`: backspace after the letter `C`. -/
theorem handleKeyPress_backspace_witness :
    (sampleTyped.state.gameOver = false ∧ 0 < sampleTyped.state.currentCol ∧
      sampleTyped.state.currentRow < sampleTyped.state.gameBoard.length) ∧
    ∃ g1, handleKeyPress sampleTyped "BACKSPACE" = some g1 ∧
      g1.state.currentCol = 0 ∧ cellAt g1.state.gameBoard 0 0 = "" := by
  obtain ⟨g1, h1, h2, h3, _⟩ :=
    handleKeyPress_backspace sampleTyped "BACKSPACE" (Or.inl rfl) rfl (by decide) (by decide)
  exact ⟨by decide, g1, h1, h2, h3⟩

/-- C7: an input that is invalid in its context is a no-op and raises no error: ENTER
when `currentCol ≠ 5`, a letter when `currentCol = 5`, backspace when `currentCol = 0`, and
any key when `gameOver` is true each leave the secret word, the board, `currentRow`,
`currentCol`, `gameOver`, `hintsUsed`, the statistics and the pending timers unchanged. -/
theorem invalid_input_noop (g : WordleGame) (key : String)
    (h : ((key = "ENTER" ∨ key = "Enter") ∧ g.state.currentCol ≠ 5) ∨
      (isLetterKey key = true ∧ g.state.currentCol = 5) ∨
      ((key = "BACKSPACE" ∨ key = "Backspace") ∧ g.state.currentCol = 0) ∨
      g.state.gameOver = true) :
    ∃ g1, handleKeyPress g key = some g1 ∧
      g1.state.currentWord = g.state.currentWord ∧
      g1.state.gameBoard = g.state.gameBoard ∧
      g1.state.currentRow = g.state.currentRow ∧
      g1.state.currentCol = g.state.currentCol ∧
      g1.state.gameOver = g.state.gameOver ∧
      g1.state.hintsUsed = g.state.hintsUsed ∧
      g1.state.stats = g.state.stats ∧
      g1.timers = g.timers := by
  by_cases hover : g.state.gameOver = true
  · exact ⟨g, by simp [handleKeyPress, hover], rfl, rfl, rfl, rfl, rfl, rfl, rfl, rfl⟩
  · have hover : g.state.gameOver = false := by simpa using hover
    rcases h with ⟨hkey, hcol⟩ | ⟨hkey, hcol⟩ | ⟨hkey, hcol⟩ | hgo
    · have hnl : isLetterKey key = false := by rcases hkey with rfl | rfl <;> decide
      refine ⟨g, ?_, rfl, rfl, rfl, rfl, rfl, rfl, rfl, rfl⟩
      simp only [handleKeyPress, trackKey, hover, hnl, hkey, hcol, if_true, if_false,
        Bool.false_eq_true]
    · obtain ⟨h1, h2⟩ := isLetterKey_not_control key hkey
      by_cases hq : String.join (keyHistory g.state key) = "QWERT"
      · exact ⟨_, qwertKey_ignored g key hkey hover hq, rfl, rfl, rfl, rfl, rfl, rfl,
          rfl, rfl⟩
      · refine ⟨{ g with state := { g.state with lastFiveKeys := keyHistory g.state key } },
          ?_, rfl, rfl, rfl, rfl, rfl, rfl, rfl, rfl⟩
        simp only [handleKeyPress, trackKey, hover, hkey, hq, h1, h2, hcol, if_true, if_false,
          Bool.false_eq_true, lt_irrefl, and_false]
    · have hnl : isLetterKey key = false := by rcases hkey with rfl | rfl <;> decide
      have hne : ¬ (key = "ENTER" ∨ key = "Enter") := by
        rcases hkey with rfl | rfl <;> decide
      refine ⟨g, ?_, rfl, rfl, rfl, rfl, rfl, rfl, rfl, rfl⟩
      simp only [handleKeyPress, trackKey, hover, hnl, hne, hkey, hcol, if_true, if_false,
        Bool.false_eq_true, gt_iff_lt, lt_irrefl]
    · rw [hover] at hgo; cases hgo

/-- Instance of `invalid_input_noop`: ENTER on the empty first row of the sample game. -/
theorem invalid_input_noop_witness :
    (("ENTER" = "ENTER" ∨ "ENTER" = "Enter") ∧ sampleGame.state.currentCol ≠ 5) ∧
    ∃ g1, handleKeyPress sampleGame "ENTER" = some g1 ∧
      g1.state.gameBoard = sampleGame.state.gameBoard ∧
      g1.state.currentCol = sampleGame.state.currentCol := by
  obtain ⟨g1, h1, _, h2, _, h3, _⟩ :=
    invalid_input_noop sampleGame "ENTER" (Or.inl ⟨Or.inl rfl, by decide⟩)
  exact ⟨⟨Or.inl rfl, by decide⟩, g1, h1, h2, h3⟩

/-! ## New game -/

/-- C8: from every prior state with a six by five board (any contents, any `gameOver`,
`hintsUsed`, `currentRow`, `currentCol`) and a non-empty dictionary, `newGame` raises no
error and yields `currentRow = 0`, `currentCol = 0`, `gameOver = false`, `hintsUsed = 0`,
every one of the 6x5 cells empty, and a secret word that is an element of the
dictionary. -/
theorem newGame_resets (WORDS : List String) (rnd : Rand) (g : WordleGame)
    (hw : WORDS ≠ []) (hb : BoardWF g.state.gameBoard) :
    ∃ g1, newGame WORDS rnd g = some g1 ∧
      g1.state.currentRow = 0 ∧
      g1.state.currentCol = 0 ∧
      g1.state.gameOver = false ∧
      g1.state.hintsUsed = 0 ∧
      BoardWF g1.state.gameBoard ∧
      (∀ r k, r < 6 → k < 5 → cellAt g1.state.gameBoard r k = "") ∧
      g1.state.currentWord ∈ WORDS := by
  have hpos : 0 < WORDS.length := List.length_pos.mpr hw
  have hidx := floorMul_lt rnd WORDS.length hpos
  have hget : WORDS[rnd.floorMul WORDS.length]? = some WORDS[rnd.floorMul WORDS.length] := by
    simp [hidx]
  refine ⟨{ g with state :=
    { g.state with
      currentWord := WORDS[rnd.floorMul WORDS.length]
      currentRow := 0
      currentCol := 0
      gameOver := false
      hintsUsed := 0
      lastFiveKeys := []
      gameBoard := emptyBoard } }, ?_, rfl, rfl, rfl, rfl,
    (by decide : BoardWF emptyBoard), ?_, ?_⟩
  · simp only [newGame, GameState.reset, hget, resetBoard_wf _ hb]
  · intro r k hr hk
    exact cellAt_emptyBoard r k hr hk
  · exact List.getElem_mem _

/-- Instance of `newGame_resets`: a new game after the letter `C` has been typed. -/
theorem newGame_resets_witness :
    (["CRANE", "SPEED"] ≠ [] ∧ BoardWF sampleTyped.state.gameBoard) ∧
    ∃ g1, newGame ["CRANE", "SPEED"] ⟨1, 2, by decide⟩ sampleTyped = some g1 ∧
      g1.state.currentCol = 0 ∧ g1.state.currentWord ∈ ["CRANE", "SPEED"] := by
  obtain ⟨g1, h1, _, h2, _, _, _, _, h3⟩ :=
    newGame_resets ["CRANE", "SPEED"] ⟨1, 2, by decide⟩ sampleTyped (by decide) (by decide)
  exact ⟨⟨by decide, by decide⟩, g1, h1, h2, h3⟩


/-! ## Hints -/

theorem loopUntil_eq (n : Nat) (test : Nat → Option Bool) (f : Nat → Bool)
    (h : ∀ i, i < n → test i = some (f i)) :
    loopUntil n test = some ((List.range n).any f) := by
  induction n with
  | zero => rfl
  | succ n ih =>
    have ih1 := ih (fun i hi => h i (by omega))
    unfold loopUntil at ih1 ⊢
    rw [List.range_succ, List.foldlM_append, ih1]
    simp only [Option.bind_eq_bind, Option.some_bind, List.foldlM_cons, List.foldlM_nil,
      List.any_append, List.any_cons, List.any_nil, Bool.or_false, h n (by omega)]
    cases (List.range n).any f <;> simp

theorem cellIsCorrect_total (s : GameState) (r c : Nat) (hr : r < s.gameBoard.length) :
    cellIsCorrect s r c = some (decide (cellIsCorrect s r c = some true)) := by
  unfold cellIsCorrect
  simp only [List.getElem?_eq_getElem hr]
  by_cases h : s.gameBoard[r][c]? = charAt s.currentWord c <;> simp [h]

/-- The first pair of loops of `getHint` finds a cell that matches the secret word. -/
theorem hasCorrectLetter_eq (s : GameState) (hrows : s.currentRow ≤ s.gameBoard.length) :
    hasCorrectLetter s = some ((List.range s.currentRow).any (fun r =>
      (List.range 5).any (fun c => decide (cellIsCorrect s r c = some true)))) := by
  unfold hasCorrectLetter
  apply loopUntil_eq
  intro r hr
  apply loopUntil_eq
  intro c _
  exact cellIsCorrect_total s r c (by omega)

theorem positionCorrectlyGuessed_eq (s : GameState)
    (hrows : s.currentRow ≤ s.gameBoard.length) (i : Nat) :
    positionCorrectlyGuessed s i = some ((List.range s.currentRow).any (fun r =>
      decide (cellIsCorrect s r i = some true))) := by
  unfold positionCorrectlyGuessed
  apply loopUntil_eq
  intro r hr
  exact cellIsCorrect_total s r i (by omega)

/-- The second pair of loops of `getHint` collects the columns without a match. -/
theorem unguessedPositions_eq (s : GameState) (hrows : s.currentRow ≤ s.gameBoard.length) :
    unguessedPositions s = some ((List.range 5).filter (fun i =>
      !(List.range s.currentRow).any (fun r => decide (cellIsCorrect s r i = some true)))) := by
  have hr : List.range 5 = [0, 1, 2, 3, 4] := by decide
  unfold unguessedPositions
  rw [hr]
  simp only [List.foldlM_cons, List.foldlM_nil, positionCorrectlyGuessed_eq s hrows,
    List.filter_cons, List.filter_nil]
  generalize (List.range s.currentRow).any
    (fun r => decide (cellIsCorrect s r 0 = some true)) = b0
  generalize (List.range s.currentRow).any
    (fun r => decide (cellIsCorrect s r 1 = some true)) = b1
  generalize (List.range s.currentRow).any
    (fun r => decide (cellIsCorrect s r 2 = some true)) = b2
  generalize (List.range s.currentRow).any
    (fun r => decide (cellIsCorrect s r 3 = some true)) = b3
  generalize (List.range s.currentRow).any
    (fun r => decide (cellIsCorrect s r 4 = some true)) = b4
  cases b0 <;> cases b1 <;> cases b2 <;> cases b3 <;> cases b4 <;> rfl

theorem any_range_iff (n : Nat) (f : Nat → Bool) :
    (List.range n).any f = true ↔ ∃ i, i < n ∧ f i = true := by
  simp [List.any_eq_true, List.mem_range]

/-- The branches of `getHint` when every row below `currentRow` is on the board. -/
theorem getHint_eq (rnd : Rand) (s : GameState) (hrows : s.currentRow ≤ s.gameBoard.length) :
    getHint rnd s =
      if s.gameOver = true ∨ s.hintsUsed ≥ s.maxHintsPerGame then
        some (s, if s.gameOver = true then HintMessage.gameOver else HintMessage.noMoreHints)
      else if s.currentRow = 0 then some (s, HintMessage.guessFirst)
      else if anyCorrect s = false then some (s, HintMessage.needCorrectLetter)
      else if (unguessedCols s).length = 0 then some (s, HintMessage.allFound)
      else
        match (unguessedCols s)[rnd.floorMul (unguessedCols s).length]? with
        | none => none
        | some position =>
          some ({ s with hintsUsed := s.hintsUsed + 1 },
            HintMessage.letterAt (charAt s.currentWord position) (position + 1)) := by
  unfold getHint
  rw [hasCorrectLetter_eq s hrows, unguessedPositions_eq s hrows]
  have h1 : (List.range s.currentRow).any (fun r =>
      (List.range 5).any (fun c => decide (cellIsCorrect s r c = some true))) = anyCorrect s := rfl
  have h2 : (List.range 5).filter (fun i =>
      !(List.range s.currentRow).any (fun r => decide (cellIsCorrect s r i = some true)))
      = unguessedCols s := rfl
  rw [h1, h2]
  cases anyCorrect s <;> rfl

theorem anyCorrect_iff (s : GameState) :
    anyCorrect s = true ↔
      ∃ r c, r < s.currentRow ∧ c < 5 ∧ cellIsCorrect s r c = some true := by
  unfold anyCorrect
  simp only [any_range_iff, decide_eq_true_eq]
  constructor
  · rintro ⟨r, hr, c, hc, h⟩; exact ⟨r, c, hr, hc, h⟩
  · rintro ⟨r, c, hr, hc, h⟩; exact ⟨r, hr, c, hc, h⟩

theorem mem_unguessedCols (s : GameState) (p : Nat) :
    p ∈ unguessedCols s ↔
      p < 5 ∧ ∀ r, r < s.currentRow → cellIsCorrect s r p ≠ some true := by
  unfold unguessedCols
  rw [List.mem_filter, List.mem_range]
  constructor
  · rintro ⟨hp, h⟩
    refine ⟨hp, fun r hr hc => ?_⟩
    have : (List.range s.currentRow).any
        (fun r => decide (cellIsCorrect s r p = some true)) = true :=
      (any_range_iff _ _).mpr ⟨r, hr, by simp [hc]⟩
    rw [this] at h
    simp at h
  · rintro ⟨hp, h⟩
    refine ⟨hp, ?_⟩
    cases hany : (List.range s.currentRow).any
        (fun r => decide (cellIsCorrect s r p = some true)) with
    | false => rfl
    | true =>
      obtain ⟨r, hr, hc⟩ := (any_range_iff _ _).mp hany
      exact absurd (of_decide_eq_true hc) (h r hr)

/-- C12: `getHint` checks its denials in this order, the first that applies wins:
(1) `gameOver`; (2) `hintsUsed >= 2`; (3) `currentRow = 0`; (4) no cell of a row below
`currentRow` equals the secret word's letter of its column; (5) every column has such a
cell in some row below `currentRow`.  Every denial returns the state as it was, so
`hintsUsed` is unchanged. -/
theorem getHint_denials (rnd : Rand) (s : GameState) (hmax : s.maxHintsPerGame = 2)
    (hrows : s.currentRow ≤ s.gameBoard.length) :
    (s.gameOver = true → getHint rnd s = some (s, HintMessage.gameOver)) ∧
    (s.gameOver = false → 2 ≤ s.hintsUsed →
      getHint rnd s = some (s, HintMessage.noMoreHints)) ∧
    (s.gameOver = false → s.hintsUsed < 2 → s.currentRow = 0 →
      getHint rnd s = some (s, HintMessage.guessFirst)) ∧
    (s.gameOver = false → s.hintsUsed < 2 → s.currentRow ≠ 0 →
      (∀ r c, r < s.currentRow → c < 5 → cellIsCorrect s r c ≠ some true) →
      getHint rnd s = some (s, HintMessage.needCorrectLetter)) ∧
    (s.gameOver = false → s.hintsUsed < 2 → s.currentRow ≠ 0 →
      (∀ c, c < 5 → ∃ r, r < s.currentRow ∧ cellIsCorrect s r c = some true) →
      getHint rnd s = some (s, HintMessage.allFound)) ∧
    (∀ s1 m, getHint rnd s = some (s1, m) → (∀ l p, m ≠ HintMessage.letterAt l p) →
      s1.hintsUsed = s.hintsUsed) := by
  rw [getHint_eq rnd s hrows, hmax]
  refine ⟨fun h => ?_, fun h1 h2 => ?_, fun h1 h2 h3 => ?_, fun h1 h2 h3 h4 => ?_,
    fun h1 h2 h3 h4 => ?_, fun s1 m h hm => ?_⟩
  · simp [h]
  · simp [h1, h2]
  · have : ¬ (s.hintsUsed ≥ 2) := by omega
    simp [h1, this, h3]
  · have : ¬ (s.hintsUsed ≥ 2) := by omega
    have hno : anyCorrect s = false := by
      cases hc : anyCorrect s with
      | false => rfl
      | true =>
        obtain ⟨r, c, hr, hc5, hcell⟩ := (anyCorrect_iff s).mp hc
        exact absurd hcell (h4 r c hr hc5)
    simp [h1, this, h3, hno]
  · have : ¬ (s.hintsUsed ≥ 2) := by omega
    have hyes : anyCorrect s = true := by
      obtain ⟨r, hr, hcell⟩ := h4 0 (by omega)
      exact (anyCorrect_iff s).mpr ⟨r, 0, hr, by omega, hcell⟩
    have hnil : unguessedCols s = [] := by
      apply List.eq_nil_iff_forall_not_mem.mpr
      intro p hp
      obtain ⟨hp5, hnone⟩ := (mem_unguessedCols s p).mp hp
      obtain ⟨r, hr, hcell⟩ := h4 p hp5
      exact hnone r hr hcell
    simp [h1, this, h3, hyes, hnil]
  · split_ifs at h
    all_goals first
      | (simp only [Option.some.injEq, Prod.mk.injEq] at h; rw [← h.1])
      | skip
    cases hidx : (unguessedCols s)[rnd.floorMul (unguessedCols s).length]? with
    | none => rw [hidx] at h; simp at h
    | some p =>
      rw [hidx] at h
      simp only [Option.some.injEq, Prod.mk.injEq] at h
      exact absurd h.2.symm (hm _ _)

/-- Instance of `getHint_denials`: a hint asked before the first guess. -/
theorem getHint_denials_witness :
    (sampleGame.state.maxHintsPerGame = 2 ∧
      sampleGame.state.currentRow ≤ sampleGame.state.gameBoard.length) ∧
    getHint sampleRand sampleGame.state = some (sampleGame.state, HintMessage.guessFirst) :=
  ⟨by decide,
    (getHint_denials sampleRand sampleGame.state (by decide) (by decide)).2.2.1
      (by decide) (by decide) (by decide)⟩

/-- C13 as stated fails: in a session that is not over, with `currentRow = 0` and
`hintsUsed = 2`, `getHint` shows the "no more hints" denial, not the "make at least one
guess first" denial. -/
theorem hint_budget_checked_before_row :
    sampleNoHints.state.gameOver = false ∧ sampleNoHints.state.currentRow = 0 ∧
    sampleNoHints.state.hintsUsed = 2 ∧
    (getHint sampleRand sampleNoHints.state).map Prod.snd = some HintMessage.noMoreHints ∧
    (getHint sampleRand sampleNoHints.state).map Prod.snd ≠ some HintMessage.guessFirst := by
  decide

/-- C13 amended: for every session that is not over with `currentRow = 0` and `hintsUsed`
already at the maximum (2), `getHint` returns the "no hints remaining" denial (the budget
is checked before `currentRow`), and leaves the session unchanged. -/
theorem getHint_budget_first (rnd : Rand) (s : GameState) (hover : s.gameOver = false)
    (_hrow : s.currentRow = 0) (hused : s.hintsUsed = 2) (hmax : s.maxHintsPerGame = 2) :
    getHint rnd s = some (s, HintMessage.noMoreHints) := by
  unfold getHint
  simp [hover, hused, hmax]

/-- Instance of `getHint_budget_first` on the sample game with its budget used up. -/
theorem getHint_budget_first_witness :
    (sampleNoHints.state.gameOver = false ∧ sampleNoHints.state.currentRow = 0 ∧
      sampleNoHints.state.hintsUsed = 2 ∧ sampleNoHints.state.maxHintsPerGame = 2) ∧
    getHint sampleRand sampleNoHints.state
      = some (sampleNoHints.state, HintMessage.noMoreHints) :=
  ⟨by decide, getHint_budget_first sampleRand sampleNoHints.state rfl rfl rfl rfl⟩

/-- C14: when none of the five denials applies (rows below `currentRow` on the board),
for every random draw `getHint` reveals a 0-based column `p < 5` in which no row below
`currentRow` holds the secret word's letter, reports the letter `currentWord[p]` with the
1-based position `p + 1`, and increases `hintsUsed` by exactly 1, leaving the board,
`currentRow`, `currentCol`, `gameOver` and the statistics unchanged. -/
theorem getHint_reveals (rnd : Rand) (s : GameState) (hmax : s.maxHintsPerGame = 2)
    (hrows : s.currentRow ≤ s.gameBoard.length)
    (hover : s.gameOver = false) (hused : s.hintsUsed < 2) (hrow : s.currentRow ≠ 0)
    (hany : ∃ r c, r < s.currentRow ∧ c < 5 ∧ cellIsCorrect s r c = some true)
    (hopen : ∃ c, c < 5 ∧ ∀ r, r < s.currentRow → cellIsCorrect s r c ≠ some true) :
    ∃ p s1, p < 5 ∧ (∀ r, r < s.currentRow → cellIsCorrect s r p ≠ some true) ∧
      getHint rnd s = some (s1, HintMessage.letterAt (charAt s.currentWord p) (p + 1)) ∧
      s1.hintsUsed = s.hintsUsed + 1 ∧
      s1.gameBoard = s.gameBoard ∧
      s1.currentRow = s.currentRow ∧
      s1.currentCol = s.currentCol ∧
      s1.gameOver = s.gameOver ∧
      s1.stats = s.stats := by
  have hyes : anyCorrect s = true := (anyCorrect_iff s).mpr hany
  obtain ⟨c, hc5, hc⟩ := hopen
  have hmem : c ∈ unguessedCols s := (mem_unguessedCols s c).mpr ⟨hc5, hc⟩
  have hpos : 0 < (unguessedCols s).length := List.length_pos_of_mem hmem
  have hidx := floorMul_lt rnd (unguessedCols s).length hpos
  have hget : (unguessedCols s)[rnd.floorMul (unguessedCols s).length]?
      = some (unguessedCols s)[rnd.floorMul (unguessedCols s).length] := by
    simp [hidx]
  obtain ⟨hp5, hp⟩ := (mem_unguessedCols s _).mp (List.getElem?_mem hget)
  refine ⟨(unguessedCols s)[rnd.floorMul (unguessedCols s).length],
    { s with hintsUsed := s.hintsUsed + 1 }, hp5, hp, ?_, rfl, rfl, rfl, rfl, rfl, rfl⟩
  rw [getHint_eq rnd s hrows, hmax, hget]
  have h1 : ¬ (s.hintsUsed ≥ 2) := by omega
  have h2 : ¬ ((unguessedCols s).length = 0) := by omega
  simp only [hover, h1, hrow, hyes, h2, Bool.false_eq_true, or_self, if_false, Bool.true_eq_false]

/-- Instance of `getHint_reveals`: a hint after the guess `CLOAK` against `CRANE`. -/
theorem getHint_reveals_witness :
    (sampleGuessed.state.gameOver = false ∧ sampleGuessed.state.hintsUsed < 2 ∧
      sampleGuessed.state.currentRow ≠ 0 ∧
      cellIsCorrect sampleGuessed.state 0 0 = some true ∧
      cellIsCorrect sampleGuessed.state 0 1 ≠ some true) ∧
    ∃ p s1, p < 5 ∧
      getHint sampleRand sampleGuessed.state
        = some (s1, HintMessage.letterAt (charAt "CRANE" p) (p + 1)) ∧
      s1.hintsUsed = 1 := by
  obtain ⟨p, s1, h1, _, h2, h3, _⟩ :=
    getHint_reveals sampleRand sampleGuessed.state (by decide) (by decide) (by decide)
      (by decide) (by decide) ⟨0, 0, by decide, by decide, by decide⟩
      ⟨1, by decide, fun r hr => by
        have : r = 0 := by
          have : sampleGuessed.state.currentRow = 1 := rfl
          omega
        subst this; decide⟩
  exact ⟨by decide, p, s1, h1, h2, h3⟩

/-! ## Submitting a row -/

/-- ENTER on a full row of a game that is not over: the state stays as it is and one
callback is scheduled. -/
theorem enterKey_schedules (g : WordleGame) (key : String) (cells : List String)
    (hkey : key = "ENTER" ∨ key = "Enter") (hover : g.state.gameOver = false)
    (hcol : g.state.currentCol = 5)
    (hrow : g.state.gameBoard[g.state.currentRow]? = some cells)
    (hlen : (String.join cells).length = 5) :
    handleKeyPress g key =
      some { g with timers := g.timers ++
        [{ guess := String.join cells
           result := checkGuess g.state.currentWord (String.join cells) }] } := by
  have hnl : isLetterKey key = false := by rcases hkey with rfl | rfl <;> decide
  simp only [handleKeyPress, trackKey, submitGuess, hover, hnl, hkey, hcol, hrow, hlen,
    if_true, if_false, Bool.false_eq_true, ne_eq, not_true_eq_false]

/-- C11 fails on the code: the outcome of a submitted row is not decided at submit time.
In one session with secret word `CRANE`: right after ENTER on the full row `CRANE` (a win)
`gameOver` is still false; right after ENTER on the full row `CLOAK` (a miss in row 0)
`currentRow` is still 0 and `currentCol` still 5; in both cases one callback is pending.
A key handled before the callback fires still acts on the submitted row: after `CRANE`,
ENTER, BACKSPACE and then the callback, the game is won with `currentCol = 4` on a row
that reads `CRAN`. -/
theorem outcome_not_decided_at_submit :
    (run ["CRANE"] sampleGame
      [Event.key "C", Event.key "R", Event.key "A", Event.key "N", Event.key "E",
        Event.key "ENTER"]).map
      (fun g => (g.state.gameOver, g.timers.length)) = some (false, 1) ∧
    (run ["CRANE"] sampleGame
      [Event.key "C", Event.key "L", Event.key "O", Event.key "A", Event.key "K",
        Event.key "ENTER"]).map
      (fun g => (g.state.currentRow, g.state.currentCol, g.timers.length))
        = some (0, 5, 1) ∧
    (run ["CRANE"] sampleGame
      [Event.key "C", Event.key "R", Event.key "A", Event.key "N", Event.key "E",
        Event.key "ENTER", Event.key "BACKSPACE", Event.timer]).map
      (fun g => (g.state.gameOver, g.state.currentCol, g.state.gameBoard.getD 0 []))
        = some (true, 4, ["C", "R", "A", "N", ""]) := by
  decide

/-- What ENTER does on a full row of a game that is not over: the whole state is left
as it is and one callback holding the guess is scheduled.  If no callback was pending and
that callback fires before any other event is handled, `gameOver` becomes true on a win or
on a miss in row 5, otherwise `currentRow` increases by 1 and `currentCol` becomes 0. -/
theorem enter_defers_outcome (g : WordleGame) (key : String) (cells : List String)
    (hkey : key = "ENTER" ∨ key = "Enter") (hover : g.state.gameOver = false)
    (hcol : g.state.currentCol = 5)
    (hrow : g.state.gameBoard[g.state.currentRow]? = some cells)
    (hlen : (String.join cells).length = 5) :
    ∃ g1, handleKeyPress g key = some g1 ∧
      g1.state = g.state ∧
      g1.timers = g.timers ++
        [{ guess := String.join cells
           result := checkGuess g.state.currentWord (String.join cells) }] ∧
      (g.timers = [] →
        (fireTimer g1).timers = [] ∧
        if String.join cells = g.state.currentWord ∨ g.state.currentRow = 5 then
          (fireTimer g1).state.gameOver = true ∧
          (fireTimer g1).state.currentRow = g.state.currentRow ∧
          (fireTimer g1).state.currentCol = g.state.currentCol
        else
          (fireTimer g1).state.gameOver = false ∧
          (fireTimer g1).state.currentRow = g.state.currentRow + 1 ∧
          (fireTimer g1).state.currentCol = 0) := by
  refine ⟨_, enterKey_schedules g key cells hkey hover hcol hrow hlen, rfl, rfl, fun ht => ?_⟩
  simp only [fireTimer, ht, List.nil_append, submitCallback, handleWin, handleLoss,
    GameState.updateStats]
  refine ⟨trivial, ?_⟩
  by_cases h1 : String.join cells = g.state.currentWord
  · simp [h1]
  · by_cases h2 : g.state.currentRow = 5
    · simp [h1, h2]
    · simp [h1, h2, hover]

/-- Instance of `enter_defers_outcome`: ENTER on the full row `CRANE` of the sample game. -/
theorem enter_defers_outcome_witness :
    (sampleFull.state.gameOver = false ∧ sampleFull.state.currentCol = 5 ∧
      sampleFull.state.gameBoard[sampleFull.state.currentRow]?
        = some ["C", "R", "A", "N", "E"] ∧
      (String.join ["C", "R", "A", "N", "E"]).length = 5) ∧
    ∃ g1, handleKeyPress sampleFull "ENTER" = some g1 ∧ g1.state = sampleFull.state ∧
      g1.timers.length = 1 := by
  obtain ⟨g1, h1, h2, h3, _⟩ :=
    enter_defers_outcome sampleFull "ENTER" ["C", "R", "A", "N", "E"] (Or.inl rfl)
      (by decide) (by decide) (by decide) (by decide)
  exact ⟨by decide, g1, h1, h2, by rw [h3]; rfl⟩

/-! ## Reachable sessions -/

theorem setCell_wf (board : List (List String)) (r c : Nat) (v : String)
    (hb : BoardWF board) (hr : r < 6) (hc : c < 5) :
    ∃ b1, setCell board r c v = some b1 ∧ BoardWF b1 ∧
      ∀ r1 c1, cellAt b1 r1 c1 = if r1 = r ∧ c1 = c then v else cellAt board r1 c1 := by
  obtain ⟨hl, hrows⟩ := hb
  have hrl : r < board.length := by omega
  obtain ⟨b1, hb1, _, hcell⟩ := setCell_spec board r c v hrl
  refine ⟨b1, hb1, ?_, hcell⟩
  have heq : b1 = board.set r (jsSet "" board[r] c v) := by
    have : setCell board r c v = some (board.set r (jsSet "" board[r] c v)) := by
      simp [setCell, hrl]
    rw [this] at hb1
    exact (Option.some.inj hb1).symm
  have hrow5 : board[r].length = 5 := hrows _ (List.getElem_mem _)
  subst heq
  refine ⟨by simp [hl], fun row hrow => ?_⟩
  rcases List.mem_or_eq_of_mem_set hrow with h | h
  · exact hrows row h
  · subst h
    rw [length_jsSet]
    omega

theorem currentRow_cells (s : GameState) (h : SessionInv s) :
    ∃ cells, s.gameBoard[s.currentRow]? = some cells ∧ cells.length = 5 := by
  obtain ⟨⟨hl, hrows⟩, hr, _⟩ := h
  have hlt : s.currentRow < s.gameBoard.length := by omega
  exact ⟨s.gameBoard[s.currentRow], by simp [hlt], hrows _ (List.getElem_mem _)⟩

/-- ENTER never changes the state (it may schedule a callback). -/
theorem enterKey_state (g : WordleGame) (key : String) (cells : List String)
    (hkey : key = "ENTER" ∨ key = "Enter") (hover : g.state.gameOver = false)
    (hrow : g.state.gameBoard[g.state.currentRow]? = some cells) :
    ∃ g1, handleKeyPress g key = some g1 ∧ g1.state = g.state := by
  have hnl : isLetterKey key = false := by rcases hkey with rfl | rfl <;> decide
  by_cases hcol : g.state.currentCol = 5
  · by_cases hlen : (String.join cells).length = 5
    · exact ⟨_, enterKey_schedules g key cells hkey hover hcol hrow hlen, rfl⟩
    · refine ⟨g, ?_, rfl⟩
      simp only [handleKeyPress, trackKey, submitGuess, hover, hnl, hkey, hcol, hrow, hlen,
        if_true, if_false, Bool.false_eq_true, ne_eq, not_false_eq_true]
  · refine ⟨g, ?_, rfl⟩
    simp only [handleKeyPress, trackKey, hover, hnl, hkey, hcol, if_true, if_false,
      Bool.false_eq_true]

/-- Every key is handled without error from a session that satisfies the invariant, and
the invariant holds afterwards. -/
theorem handleKeyPress_inv (g : WordleGame) (key : String) (h : SessionInv g.state) :
    ∃ g1, handleKeyPress g key = some g1 ∧ SessionInv g1.state := by
  obtain ⟨cells, hcells, _⟩ := currentRow_cells g.state h
  obtain ⟨hb, hr, hc, hh, hm, hcell⟩ := h
  by_cases hover : g.state.gameOver = true
  · exact ⟨g, by simp [handleKeyPress, hover], hb, hr, hc, hh, hm, hcell⟩
  have hover : g.state.gameOver = false := by simpa using hover
  by_cases hl : isLetterKey key = true
  · obtain ⟨h1, h2⟩ := isLetterKey_not_control key hl
    by_cases hq : String.join (keyHistory g.state key) = "QWERT"
    · exact ⟨_, qwertKey_ignored g key hl hover hq, hb, hr, hc, hh, hm, hcell⟩
    · by_cases hcol : g.state.currentCol < 5
      · obtain ⟨b1, hb1, hwf1, hcell1⟩ := setCell_wf g.state.gameBoard g.state.currentRow
          g.state.currentCol key hb (by omega) hcol
        refine ⟨{ g with state :=
            { g.state with
              lastFiveKeys := keyHistory g.state key
              gameBoard := b1
              currentCol := g.state.currentCol + 1 } },
          by rw [letterKey_written g key hl hover hcol hq, hb1], hwf1, hr,
          (by show g.state.currentCol + 1 ≤ 5; omega), hh, hm, fun r c hne => ?_⟩
        have hne1 : cellAt b1 r c ≠ "" := hne
        show r < g.state.currentRow ∨ (r = g.state.currentRow ∧ c < g.state.currentCol + 1)
        rw [hcell1] at hne1
        by_cases hrc : r = g.state.currentRow ∧ c = g.state.currentCol
        · right; exact ⟨hrc.1, by omega⟩
        · rw [if_neg hrc] at hne1
          rcases hcell r c hne1 with h3 | ⟨h3, h4⟩
          · left; exact h3
          · right; exact ⟨h3, by omega⟩
      · refine ⟨{ g with state := { g.state with lastFiveKeys := keyHistory g.state key } },
          ?_, hb, hr, hc, hh, hm, hcell⟩
        simp only [handleKeyPress, trackKey, hover, hl, hq, h1, h2, hcol, if_true, if_false,
          Bool.false_eq_true, and_false]
  · have hl : isLetterKey key = false := by simpa using hl
    by_cases hE : key = "ENTER" ∨ key = "Enter"
    · obtain ⟨g1, hg1, hst⟩ := enterKey_state g key cells hE hover hcells
      refine ⟨g1, hg1, ?_⟩
      rw [hst]
      exact ⟨hb, hr, hc, hh, hm, hcell⟩
    · by_cases hB : key = "BACKSPACE" ∨ key = "Backspace"
      · by_cases hcol : 0 < g.state.currentCol
        · obtain ⟨b1, hb1, hwf1, hcell1⟩ := setCell_wf g.state.gameBoard g.state.currentRow
            (g.state.currentCol - 1) "" hb (by omega) (by omega)
          refine ⟨{ g with state :=
              { g.state with currentCol := g.state.currentCol - 1, gameBoard := b1 } },
            by rw [backspaceKey_erases g key hB hover hcol, hb1], hwf1, hr,
            (by show g.state.currentCol - 1 ≤ 5; omega), hh, hm, fun r c hne => ?_⟩
          have hne1 : cellAt b1 r c ≠ "" := hne
          show r < g.state.currentRow ∨ (r = g.state.currentRow ∧ c < g.state.currentCol - 1)
          rw [hcell1] at hne1
          by_cases hrc : r = g.state.currentRow ∧ c = g.state.currentCol - 1
          · rw [if_pos hrc] at hne1
            exact absurd rfl hne1
          · rw [if_neg hrc] at hne1
            rcases hcell r c hne1 with h3 | ⟨h3, h4⟩
            · left; exact h3
            · right
              refine ⟨h3, ?_⟩
              have : c ≠ g.state.currentCol - 1 := fun e => hrc ⟨h3, e⟩
              omega
        · refine ⟨g, ?_, hb, hr, hc, hh, hm, hcell⟩
          simp only [handleKeyPress, trackKey, hover, hl, hE, hB, hcol, if_true, if_false,
            Bool.false_eq_true, gt_iff_lt]
      · refine ⟨g, ?_, hb, hr, hc, hh, hm, hcell⟩
        simp only [handleKeyPress, trackKey, hover, hl, hE, hB, if_true, if_false,
          Bool.false_eq_true, false_and]

/-- A callback that fires keeps the invariant. -/
theorem fireTimer_inv (g : WordleGame) (h : SessionInv g.state) :
    SessionInv (fireTimer g).state := by
  obtain ⟨hb, hr, hc, hh, hm, hcell⟩ := h
  unfold fireTimer
  cases hti : g.timers with
  | nil => exact ⟨hb, hr, hc, hh, hm, hcell⟩
  | cons t rest =>
    show SessionInv (submitCallback t.guess g.state)
    unfold submitCallback
    by_cases h1 : t.guess = g.state.currentWord
    · rw [if_pos h1]; exact ⟨hb, hr, hc, hh, hm, hcell⟩
    · rw [if_neg h1]
      by_cases h2 : g.state.currentRow = 5
      · rw [if_pos h2]; exact ⟨hb, hr, hc, hh, hm, hcell⟩
      · rw [if_neg h2]
        refine ⟨hb, (by show g.state.currentRow + 1 ≤ 5; omega), Nat.zero_le _, hh, hm,
          fun r c hne => ?_⟩
        show r < g.state.currentRow + 1 ∨ _
        rcases hcell r c hne with h3 | ⟨h3, _⟩
        · left; omega
        · left; omega

theorem cellAt_emptyBoard_any (r c : Nat) : cellAt emptyBoard r c = "" := by
  unfold cellAt emptyBoard
  simp only [List.getD_eq_getElem?_getD, List.getElem?_replicate]
  by_cases hr : r < 6
  · simp only [hr, if_true, Option.getD_some, List.getElem?_replicate]
    split <;> rfl
  · simp [hr]

/-- On a six by five board `newGame` is `reset` followed by an empty board. -/
theorem newGame_eq (WORDS : List String) (rnd : Rand) (g : WordleGame)
    (hb : BoardWF g.state.gameBoard) :
    newGame WORDS rnd g =
      match WORDS[rnd.floorMul WORDS.length]? with
      | none => none
      | some w =>
        some { g with state :=
          { g.state with
            currentWord := w
            currentRow := 0
            currentCol := 0
            gameOver := false
            hintsUsed := 0
            lastFiveKeys := []
            gameBoard := emptyBoard } } := by
  unfold newGame GameState.reset
  cases WORDS[rnd.floorMul WORDS.length]? with
  | none => rfl
  | some w => simp only [resetBoard_wf _ hb]

theorem newGame_inv (WORDS : List String) (rnd : Rand) (g g1 : WordleGame)
    (hb : BoardWF g.state.gameBoard) (hm : g.state.maxHintsPerGame = 2)
    (h : newGame WORDS rnd g = some g1) : SessionInv g1.state := by
  rw [newGame_eq WORDS rnd g hb] at h
  cases hw : WORDS[rnd.floorMul WORDS.length]? with
  | none => rw [hw] at h; cases h
  | some w =>
    rw [hw] at h
    simp only [Option.some.injEq] at h
    subst h
    refine ⟨(by decide : BoardWF emptyBoard), Nat.zero_le _, Nat.zero_le _, Nat.zero_le _,
      hm, fun r c hne => ?_⟩
    exact absurd (cellAt_emptyBoard_any r c) hne

theorem newGame_ok (WORDS : List String) (rnd : Rand) (g : WordleGame)
    (hb : BoardWF g.state.gameBoard) (hw : WORDS ≠ []) :
    ∃ g1, newGame WORDS rnd g = some g1 := by
  rw [newGame_eq WORDS rnd g hb]
  have hidx := floorMul_lt rnd WORDS.length (List.length_pos.mpr hw)
  have hget : WORDS[rnd.floorMul WORDS.length]? = some WORDS[rnd.floorMul WORDS.length] := by
    simp [hidx]
  rw [hget]
  exact ⟨_, rfl⟩

/-- A hint request is handled without error from a session that satisfies the invariant,
and the invariant holds afterwards. -/
theorem getHint_inv (rnd : Rand) (s : GameState) (h : SessionInv s) :
    ∃ r, getHint rnd s = some r ∧ SessionInv r.1 := by
  have hinv := h
  obtain ⟨hb, hr, hc, hh, hm, hcell⟩ := h
  have hrows : s.currentRow ≤ s.gameBoard.length := by
    have := hb.1
    omega
  rw [getHint_eq rnd s hrows]
  by_cases h1 : s.gameOver = true ∨ s.hintsUsed ≥ s.maxHintsPerGame
  · rw [if_pos h1]; exact ⟨_, rfl, hinv⟩
  rw [if_neg h1]
  by_cases h2 : s.currentRow = 0
  · rw [if_pos h2]; exact ⟨_, rfl, hinv⟩
  rw [if_neg h2]
  by_cases h3 : anyCorrect s = false
  · rw [if_pos h3]; exact ⟨_, rfl, hinv⟩
  rw [if_neg h3]
  by_cases h4 : (unguessedCols s).length = 0
  · rw [if_pos h4]; exact ⟨_, rfl, hinv⟩
  rw [if_neg h4]
  have hidx := floorMul_lt rnd (unguessedCols s).length (by omega)
  have hget : (unguessedCols s)[rnd.floorMul (unguessedCols s).length]?
      = some (unguessedCols s)[rnd.floorMul (unguessedCols s).length] := by
    simp [hidx]
  rw [hget]
  refine ⟨_, rfl, hb, hr, hc, ?_, hm, hcell⟩
  show s.hintsUsed + 1 ≤ 2
  have : ¬ (s.hintsUsed ≥ s.maxHintsPerGame) := fun e => h1 (Or.inr e)
  omega

/-- Every event that is handled keeps the invariant. -/
theorem step_inv (WORDS : List String) (g g1 : WordleGame) (e : Event)
    (h : SessionInv g.state) (hs : step WORDS g e = some g1) : SessionInv g1.state := by
  cases e with
  | key k =>
    obtain ⟨g2, hg2, hinv⟩ := handleKeyPress_inv g k h
    have : step WORDS g (Event.key k) = handleKeyPress g k := rfl
    rw [this, hg2] at hs
    rw [← Option.some.inj hs]
    exact hinv
  | timer =>
    have : step WORDS g Event.timer = some (fireTimer g) := rfl
    rw [this] at hs
    rw [← Option.some.inj hs]
    exact fireTimer_inv g h
  | newGame rnd => exact newGame_inv WORDS rnd g g1 h.1 h.2.2.2.2.1 hs
  | hint rnd =>
    obtain ⟨r, hr, hinv⟩ := getHint_inv rnd g.state h
    have : step WORDS g (Event.hint rnd) = some { g with state := r.1 } := by
      simp only [step, hr]
    rw [this] at hs
    rw [← Option.some.inj hs]
    exact hinv

/-- No event raises an error in a session that satisfies the invariant. -/
theorem step_ok (WORDS : List String) (g : WordleGame) (e : Event)
    (h : SessionInv g.state) (hw : WORDS ≠ []) : ∃ g1, step WORDS g e = some g1 := by
  cases e with
  | key k =>
    obtain ⟨g2, hg2, _⟩ := handleKeyPress_inv g k h
    exact ⟨g2, hg2⟩
  | timer => exact ⟨_, rfl⟩
  | newGame rnd => exact newGame_ok WORDS rnd g h.1 hw
  | hint rnd =>
    obtain ⟨r, hr, _⟩ := getHint_inv rnd g.state h
    exact ⟨{ g with state := r.1 }, by simp only [step, hr]⟩

theorem run_inv (WORDS : List String) (es : List Event) (g0 g : WordleGame)
    (h : SessionInv g0.state) (hrun : run WORDS g0 es = some g) : SessionInv g.state := by
  induction es generalizing g0 with
  | nil =>
    have : run WORDS g0 [] = some g0 := rfl
    rw [this] at hrun
    rw [← Option.some.inj hrun]
    exact h
  | cons e es ih =>
    cases hs : step WORDS g0 e with
    | none => simp [run, hs] at hrun
    | some g1 =>
      have : run WORDS g0 (e :: es) = run WORDS g1 es := by simp [run, hs]
      rw [this] at hrun
      exact ih g1 (step_inv WORDS g0 g1 e h hs) hrun

theorem init_inv (WORDS : List String) (rnd : Rand) (g0 : WordleGame)
    (h : WordleGame.init WORDS rnd = some g0) : SessionInv g0.state :=
  newGame_inv WORDS rnd _ g0 (by decide : BoardWF emptyBoard) rfl h

theorem init_words (WORDS : List String) (rnd : Rand) (g0 : WordleGame)
    (h : WordleGame.init WORDS rnd = some g0) : WORDS ≠ [] := by
  rintro rfl
  simp [WordleGame.init, newGame, GameState.reset] at h

/-- C15: in every state reached from the game as `init()` leaves it (a new game) by key
presses (letters, backspace, ENTER, any other key), hint requests, `newGame` calls and
firings of the deferred callbacks, a board cell at `(row, col)` is non-empty only if
`row < currentRow`, or `row = currentRow` and `col < currentCol`. -/
theorem cells_filled_before_cursor (WORDS : List String) (rnd : Rand) (es : List Event)
    (g0 g : WordleGame) (h0 : WordleGame.init WORDS rnd = some g0)
    (hrun : run WORDS g0 es = some g) (row col : Nat)
    (hne : cellAt g.state.gameBoard row col ≠ "") :
    row < g.state.currentRow ∨ (row = g.state.currentRow ∧ col < g.state.currentCol) :=
  (run_inv WORDS es g0 g (init_inv WORDS rnd g0 h0) hrun).2.2.2.2.2 row col hne

/-- Instance of `cells_filled_before_cursor`: the cell `(0, 0)` after the key `C`. -/
theorem cells_filled_before_cursor_witness :
    (WordleGame.init ["CRANE"] sampleRand = some sampleGame ∧
      run ["CRANE"] sampleGame [Event.key "C"] = some sampleTyped ∧
      cellAt sampleTyped.state.gameBoard 0 0 ≠ "") ∧
    (0 < sampleTyped.state.currentRow ∨
      (0 = sampleTyped.state.currentRow ∧ 0 < sampleTyped.state.currentCol)) :=
  ⟨by decide,
    cells_filled_before_cursor ["CRANE"] sampleRand [Event.key "C"] sampleGame sampleTyped
      (by decide) (by decide) 0 0 (by decide)⟩

/-- C16: in every state reached from a new game, `currentRow <= 5`, `currentCol <= 5` and
`hintsUsed <= 2`, the board is six rows of five cells and the row `gameBoard[currentRow]`
exists with its five cells, so the letter write at `(currentRow, currentCol)` (guarded by
`currentCol < 5`), the backspace clear at `(currentRow, currentCol - 1)` and the read of
`gameBoard[currentRow]` on submit stay within the grid; no event raises an error. -/
theorem reachable_in_bounds (WORDS : List String) (rnd : Rand) (es : List Event)
    (g0 g : WordleGame) (h0 : WordleGame.init WORDS rnd = some g0)
    (hrun : run WORDS g0 es = some g) :
    g.state.currentRow ≤ 5 ∧ g.state.currentCol ≤ 5 ∧ g.state.hintsUsed ≤ 2 ∧
    BoardWF g.state.gameBoard ∧
    (∃ cells, g.state.gameBoard[g.state.currentRow]? = some cells ∧ cells.length = 5) ∧
    (∀ e, ∃ g1, step WORDS g e = some g1) := by
  have hinv := run_inv WORDS es g0 g (init_inv WORDS rnd g0 h0) hrun
  exact ⟨hinv.2.1, hinv.2.2.1, hinv.2.2.2.1, hinv.1, currentRow_cells g.state hinv,
    fun e => step_ok WORDS g e hinv (init_words WORDS rnd g0 h0)⟩

/-- Instance of `reachable_in_bounds`: the sample game after the key `C`. -/
theorem reachable_in_bounds_witness :
    (WordleGame.init ["CRANE"] sampleRand = some sampleGame ∧
      run ["CRANE"] sampleGame [Event.key "C"] = some sampleTyped) ∧
    sampleTyped.state.currentRow ≤ 5 ∧ sampleTyped.state.currentCol ≤ 5 ∧
    sampleTyped.state.hintsUsed ≤ 2 :=
  ⟨by decide,
    (reachable_in_bounds ["CRANE"] sampleRand [Event.key "C"] sampleGame sampleTyped
      (by decide) (by decide)).1,
    (reachable_in_bounds ["CRANE"] sampleRand [Event.key "C"] sampleGame sampleTyped
      (by decide) (by decide)).2.1,
    (reachable_in_bounds ["CRANE"] sampleRand [Event.key "C"] sampleGame sampleTyped
      (by decide) (by decide)).2.2.1⟩

end Wordle
